import Mathlib

/-!
Verification of the news-network repository: the credential-pooled rate
limiter (modules/key_manager.py, modules/llm_client.py) and the resilient
extraction pipeline (main.py), as a shallow embedding in Lean.

Modelling conventions used throughout:

* Python floats that only ever hold exact small quantities (timestamps,
  waiting times) are modelled as rationals.
* `int(x / 2.5)`, `int(x * 2.5)` and `int(x * 0.25)` on nonnegative integers
  are exact in IEEE doubles for all realistic sizes (2.5 and 0.25 are dyadic;
  the fractional parts 0.2/0.4/0.6/0.8 keep truncation stable), so they are
  modelled by the natural-number divisions `2 * x / 5`, `5 * x / 2`, `x / 4`.
* The float comparisons against the literals 0.95 and 0.85 are modelled by
  the exact rational comparisons `20 * a < 19 * b` and `20 * a ≥ 17 * b`;
  for the integral operands occurring in the program these agree with the
  double-precision comparisons (the products stay within half an ulp of the
  exact values, and non-multiples of the denominators stay at distance at
  least `1/(20·b)` from the threshold).
* Python strings are Lean `String`s; all operations are re-implemented by
  structural recursion on the character list so that every predicate in this
  file can be evaluated by `decide`.
-/

/-- Python's whitespace class: the characters matched by the regex class
`\s` and stripped by `str.strip()` / split on by `str.split()`. -/
def isPySpace (c : Char) : Bool :=
  c = ' ' || c = '\t' || c = '\n' || c = '\r' || c = '\x0b' || c = '\x0c'

/-- `str.strip()` on a character list: drop leading and trailing whitespace. -/
def stripChars (cs : List Char) : List Char :=
  ((cs.dropWhile isPySpace).reverse.dropWhile isPySpace).reverse

/-- `str.split()` with no separator: split on whitespace runs, dropping empty
pieces.  The accumulator holds the current token reversed. -/
def splitWsAux : List Char → List Char → List String
  | [], cur => if cur.isEmpty then [] else [String.mk cur.reverse]
  | c :: cs, cur =>
    if isPySpace c then
      if cur.isEmpty then splitWsAux cs [] else String.mk cur.reverse :: splitWsAux cs []
    else splitWsAux cs (c :: cur)

/-- `str.split()` with no separator argument. -/
def pySplitWs (s : String) : List String :=
  splitWsAux s.data []

/-- The character class `[a-z0-9\s]` kept by the regex of `normalize_text`. -/
def keepNormChar (c : Char) : Bool :=
  ('a' ≤ c && c ≤ 'z') || ('0' ≤ c && c ≤ '9') || isPySpace c

/-- main.normalize_text: lowercase, erase every character outside
`[a-z0-9\s]`, then strip.  (`if not text: return ""` coincides with the
general path on the empty string.) -/
def normalize_text (text : String) : String :=
  String.mk (stripChars ((text.data.map Char.toLower).filter keepNormChar))

/-- The fields of an extraction record that the pipeline inspects
(`item.get('source_headlines', [])`). -/
structure ExtractionRecord where
  sourceHeadlines : List String
deriving DecidableEq

/-- The fields of a source item used by the extraction pipeline: the dict
keys `title`, `time`, `publisher`, `content`. -/
structure NewsItem where
  title : String
  time : String
  publisher : String
  content : List String
deriving DecidableEq

/-- `set(norm.split())`: the token set of a normalized string, modelled as a
duplicate-free list (only membership and cardinality are ever used). -/
def tokenSet (norm : String) : List String :=
  (pySplitWs norm).dedup

/-- `len(title_tokens.intersection(e_tokens))`. -/
def interCount (tset eset : List String) : Nat :=
  (tset.filter (fun t => eset.contains t)).length

/-- The `overlap >= 0.85` test of find_missing_items, as an exact rational
comparison over the integer operands. -/
def overlapOk (tset eset : List String) : Bool :=
  decide (20 * interCount tset eset ≥ 17 * tset.length)

/-- find_missing_items, first loop: the token sets of every declared
`source_headlines` entry whose normalization is nonempty, in order. -/
def extractedSets (salvaged : List ExtractionRecord) : List (List String) :=
  salvaged.flatMap (fun item =>
    item.sourceHeadlines.filterMap (fun h =>
      let norm := normalize_text h
      if norm = "" then none else some (tokenSet norm)))

/-- find_missing_items, inner loop: `is_found` for one chunk item. -/
def itemFound (extracted : List (List String)) (title : String) : Bool :=
  let tset := tokenSet (normalize_text title)
  extracted.any (fun e => !tset.isEmpty && overlapOk tset e)

/-- main.find_missing_items: the chunk items whose title matches no declared
headline.  Items whose normalized title is empty are always reported
missing; with no salvaged items at all the whole chunk is returned. -/
def find_missing_items (chunk : List NewsItem) (salvaged : List ExtractionRecord) :
    List NewsItem :=
  if salvaged = [] then chunk else
  let ex := extractedSets salvaged
  chunk.filter (fun item =>
    if normalize_text item.title = "" then true
    else !(itemFound ex item.title))

/-- Modelled from the spec's words, for comparison with the code: an item is
covered when some declared headline reaches token-overlap ratio ≥ 0.85 with
the item's title tokens, OR one normalized string is a substring of the
other. -/
def specCovered (item : NewsItem) (salvaged : List ExtractionRecord) : Prop :=
  ∃ h ∈ salvaged.flatMap (fun r => r.sourceHeadlines),
    20 * interCount (tokenSet (normalize_text item.title)) (tokenSet (normalize_text h)) ≥
        17 * (tokenSet (normalize_text item.title)).length ∨
      (normalize_text item.title).data <:+: (normalize_text h).data ∨
      (normalize_text h).data <:+: (normalize_text item.title).data

instance (item : NewsItem) (salvaged : List ExtractionRecord) :
    Decidable (specCovered item salvaged) := by
  unfold specCovered; infer_instance

/-- The coverage predicate the code actually implements: a nonempty token
set for the item's title, and some declared headline with nonempty
normalization whose token overlap with the title reaches 0.85. -/
def codeCovered (item : NewsItem) (salvaged : List ExtractionRecord) : Prop :=
  tokenSet (normalize_text item.title) ≠ [] ∧
  ∃ h ∈ salvaged.flatMap (fun r => r.sourceHeadlines),
    normalize_text h ≠ "" ∧
    20 * interCount (tokenSet (normalize_text item.title)) (tokenSet (normalize_text h)) ≥
      17 * (tokenSet (normalize_text item.title)).length

instance (item : NewsItem) (salvaged : List ExtractionRecord) :
    Decidable (codeCovered item salvaged) := by
  unfold codeCovered; infer_instance

def c8Item : NewsItem := ⟨"alphabet", "t", "p", []⟩

def c8Rec : ExtractionRecord := ⟨["alphabetic soup"]⟩

/-- C8 counterexample: the item titled "alphabet" is covered according to the
claim (its normalized title is a substring of the declared headline
"alphabetic soup"), yet find_missing_items reports it missing — the code has
no substring clause. -/
theorem c8_counterexample :
    specCovered c8Item [c8Rec] ∧
    find_missing_items [c8Item] [c8Rec] = [c8Item] := by
  decide

/-- C8 (amended): find_missing_items returns exactly the chunk items that are
not covered, where covered means a nonempty normalized title whose token set
reaches overlap ratio ≥ 0.85 with some declared headline of nonempty
normalization; there is no substring clause. -/
theorem c8_amended (chunk : List NewsItem) (salvaged : List ExtractionRecord) :
    find_missing_items chunk salvaged =
      chunk.filter (fun item => decide (¬ codeCovered item salvaged)) := by
  have hfound : ∀ item : NewsItem,
      itemFound (extractedSets salvaged) item.title = true ↔ codeCovered item salvaged := by
    intro item
    unfold itemFound codeCovered
    rw [List.any_eq_true]
    constructor
    · rintro ⟨e, he, hp⟩
      rw [Bool.and_eq_true, Bool.not_eq_true', List.isEmpty_eq_false_iff_exists_mem] at hp
      obtain ⟨hne, hov⟩ := hp
      refine ⟨?_, ?_⟩
      · rcases hne with ⟨x, hx⟩
        intro h0; rw [h0] at hx; exact List.not_mem_nil x hx
      · unfold extractedSets at he
        rw [List.mem_flatMap] at he
        obtain ⟨r, hr, hmem⟩ := he
        rw [List.mem_filterMap] at hmem
        obtain ⟨h, hh, heq⟩ := hmem
        by_cases hz : normalize_text h = ""
        · simp [hz] at heq
        · simp only [hz, if_neg] at heq
          refine ⟨h, List.mem_flatMap.mpr ⟨r, hr, hh⟩, hz, ?_⟩
          have : e = tokenSet (normalize_text h) := by
            simpa [hz] using heq.symm
          rw [← this]
          exact of_decide_eq_true hov
    · rintro ⟨hne, h, hh, hz, hov⟩
      rw [List.mem_flatMap] at hh
      obtain ⟨r, hr, hh'⟩ := hh
      refine ⟨tokenSet (normalize_text h), ?_, ?_⟩
      · unfold extractedSets
        rw [List.mem_flatMap]
        exact ⟨r, hr, List.mem_filterMap.mpr ⟨h, hh', by simp [hz]⟩⟩
      · rw [Bool.and_eq_true, Bool.not_eq_true', List.isEmpty_eq_false_iff_exists_mem]
        constructor
        · rcases List.exists_mem_of_ne_nil _ hne with ⟨x, hx⟩
          exact ⟨x, hx⟩
        · exact decide_eq_true hov
  have hempty : ∀ item : NewsItem, normalize_text item.title = "" →
      tokenSet (normalize_text item.title) = [] := by
    intro item h0
    rw [h0]
    rfl
  unfold find_missing_items
  by_cases hs : salvaged = []
  · subst hs
    have hnone : ∀ item : NewsItem, ¬ codeCovered item [] := by
      rintro item ⟨-, h, hh, -⟩
      simp at hh
    rw [if_pos rfl]
    symm
    rw [List.filter_eq_self]
    intro a _
    simp [hnone a]
  · simp only [if_neg hs]
    apply List.filter_congr
    intro item _
    by_cases h0 : normalize_text item.title = ""
    · have : ¬ codeCovered item salvaged := fun hc => hc.1 (hempty item h0)
      simp [h0, this]
    · have := hfound item
      by_cases hf : itemFound (extractedSets salvaged) item.title = true
      · have hc := this.mp hf
        simp [h0, hf, hc]
      · have hc : ¬ codeCovered item salvaged := fun hcc => hf (this.mpr hcc)
        simp only [if_neg h0]
        rw [Bool.not_eq_true] at hf
        simp [hf, hc]

/-- For the regex `<[^>]+>`: given the characters after a '<', a match needs
at least one non-'>' character and then a '>'; returns the remainder after
that '>' when the position matches. -/
def splitAtGt (cs : List Char) : Option (List Char) :=
  match cs.findIdx? (fun c => c = '>') with
  | none => none
  | some 0 => none
  | some (i + 1) => some (cs.drop (i + 2))

/-- Fuel-indexed tag deletion.  Every step consumes at least one character
and exactly one unit of fuel, so with the fuel initialised to the list
length the base case is only ever reached on the empty list, where it
agrees with the match below; the fuel only makes the recursion structural
so that the kernel can evaluate it. -/
def stripTagsAux : Nat → List Char → List Char
  | 0, cs => cs
  | fuel + 1, cs =>
    match cs with
    | [] => []
    | c :: rest =>
      if c = '<' then
        match splitAtGt rest with
        | some after => stripTagsAux fuel after
        | none => c :: stripTagsAux fuel rest
      else c :: stripTagsAux fuel rest

/-- `re.sub(r'<[^>]+>', '', s)` on the character list: delete every
tag-shaped span, scanning left to right. -/
def stripTags (cs : List Char) : List Char :=
  stripTagsAux cs.length cs

/-- `clean_text.split(". ")`, greedy left-to-right, keeping empty pieces,
with the accumulator holding the current piece reversed. -/
def splitDotSpace : List Char → List Char → List (List Char)
  | [], cur => [cur.reverse]
  | '.' :: ' ' :: rest, cur => cur.reverse :: splitDotSpace rest []
  | c :: rest, cur => splitDotSpace rest (c :: cur)

/-- clean_content's paragraph re-accumulation: append each part plus ". ",
flushing (stripped) whenever the running length exceeds 200, and flush a
nonempty remainder at the end. -/
def buildParas : List String → String → List String
  | [], cur => if cur = "" then [] else [String.mk (stripChars cur.data)]
  | p :: ps, cur =>
    let cur2 := cur ++ p ++ ". "
    if cur2.length > 200 then String.mk (stripChars cur2.data) :: buildParas ps ""
    else buildParas ps cur2

/-- main.clean_content: join, strip tags, then either re-split a single
blob into ≈200-character paragraphs or strip each nonempty piece. -/
def clean_content (contentList : List String) : List String :=
  if contentList.isEmpty then [] else
  let fullText := String.intercalate " " contentList
  let cleanData := stripTags fullText.data
  if contentList.length ≤ 1 then
    buildParas ((splitDotSpace cleanData []).map String.mk) ""
  else
    (contentList.filter (fun c => !(stripChars c.data).isEmpty)).map
      (fun c => String.mk (stripChars (stripTags c.data)))

/-- `" ".join(clean_content(item.get('content', [])))`. -/
def itemBody (it : NewsItem) : String :=
  String.intercalate " " (clean_content it.content)

/-- `f"{item.get('time')} {item.get('title')} {item.get('publisher')}"`. -/
def itemMeta (it : NewsItem) : String :=
  it.time ++ " " ++ it.title ++ " " ++ it.publisher

/-- chunk_data's per-item estimate:
`int((len(body) + len(meta) + 50) / 2.5)`. -/
def estTok (it : NewsItem) : Nat :=
  2 * ((itemBody it).length + (itemMeta it).length + 50) / 5

/-- Fuel-indexed windowing; with positive `limit` every step drops at least
one character, so fuel = list length reaches the base case only on the
empty list. -/
def chopEveryAux (limit : Nat) : Nat → List Char → List (List Char)
  | 0, _ => []
  | fuel + 1, cs =>
    if cs = [] then [] else cs.take limit :: chopEveryAux limit fuel (cs.drop limit)

/-- `[body[i:i+limit] for i in range(0, len(body), limit)]`.  (Python raises
on a zero step; the zero case is unreachable for the positive budgets the
pipeline uses, and is mapped to the empty list here.) -/
def chopEvery (limit : Nat) (cs : List Char) : List (List Char) :=
  if limit = 0 then [] else chopEveryAux limit cs.length cs

/-- chunk_data's slicing pre-pass for one item: an oversized body becomes
one synthetic part-marked item per window. -/
def sliceItem (limitChars : Nat) (item : NewsItem) : List NewsItem :=
  let body := itemBody item
  if body.length > limitChars then
    let parts := chopEvery limitChars body.data
    parts.enum.map (fun pi =>
      { item with
        title := "[Part " ++ toString (pi.1 + 1) ++ "/" ++ toString parts.length ++ "] "
          ++ item.title,
        content := [String.mk pi.2] })
  else [item]

/-- chunk_data's greedy packing loop over the flattened items, carrying the
current chunk and its running token total. -/
def packChunks (maxTokens : Nat) : List NewsItem → List NewsItem → Nat → List (List NewsItem)
  | [], cur, _ => if cur.isEmpty then [] else [cur]
  | it :: rest, cur, curTok =>
    let est := estTok it
    if curTok + est > maxTokens && !cur.isEmpty then
      cur :: packChunks maxTokens rest [it] est
    else
      packChunks maxTokens rest (cur ++ [it]) (curTok + est)

/-- main.chunk_data. -/
def chunk_data (items : List NewsItem) (maxTokens : Nat) : List (List NewsItem) :=
  let limitChars := 5 * maxTokens / 2
  packChunks maxTokens (items.flatMap (sliceItem limitChars)) [] 0

/-- The estimated token total of a chunk. -/
def chunkTokens (c : List NewsItem) : Nat :=
  (c.map estTok).sum

theorem chunkTokens_append (a b : List NewsItem) :
    chunkTokens (a ++ b) = chunkTokens a + chunkTokens b := by
  unfold chunkTokens
  rw [List.map_append, List.sum_append]

theorem packChunks_sound (maxTokens : Nat) :
    ∀ (rest cur : List NewsItem) (curTok : Nat),
      curTok = chunkTokens cur →
      (cur = [] ∨ chunkTokens cur ≤ maxTokens ∨ ∃ it, cur = [it] ∧ estTok it > maxTokens) →
      ∀ c ∈ packChunks maxTokens rest cur curTok,
        c ≠ [] ∧ (chunkTokens c ≤ maxTokens ∨ ∃ it, c = [it] ∧ estTok it > maxTokens) := by
  intro rest
  induction rest with
  | nil =>
    intro cur curTok htok hinv c hc
    unfold packChunks at hc
    by_cases hcur : cur.isEmpty
    · simp [hcur] at hc
    · simp only [hcur, Bool.false_eq_true, if_neg, not_false_eq_true] at hc
      rw [List.mem_singleton] at hc
      subst hc
      have hne : c ≠ [] := by
        intro h; rw [h] at hcur; exact hcur rfl
      rcases hinv with h | h
      · exact absurd h hne
      · exact ⟨hne, h⟩
  | cons it rest ih =>
    intro cur curTok htok hinv c hc
    unfold packChunks at hc
    by_cases hcond : (curTok + estTok it > maxTokens && !cur.isEmpty) = true
    · rw [if_pos hcond] at hc
      rw [List.mem_cons] at hc
      rcases hc with hc | hc
      · subst hc
        rw [Bool.and_eq_true, Bool.not_eq_true'] at hcond
        have hne : c ≠ [] := by
          intro h
          rw [h] at hcond
          simp at hcond
        rcases hinv with h | h
        · exact absurd h hne
        · exact ⟨hne, h⟩
      · refine ih [it] (estTok it) ?_ ?_ c hc
        · unfold chunkTokens; simp
        · by_cases hb : estTok it ≤ maxTokens
          · right; left; unfold chunkTokens; simpa using hb
          · right; right; exact ⟨it, rfl, by omega⟩
    · rw [if_neg hcond] at hc
      refine ih (cur ++ [it]) (curTok + estTok it) ?_ ?_ c hc
      · rw [chunkTokens_append, htok]
        unfold chunkTokens; simp
      · by_cases hcur : cur = []
        · subst hcur
          simp only [List.nil_append]
          by_cases hb : estTok it ≤ maxTokens
          · right; left; unfold chunkTokens; simpa using hb
          · right; right; exact ⟨it, rfl, by omega⟩
        · right; left
          have hcur' : cur.isEmpty = false := by
            cases cur with
            | nil => exact absurd rfl hcur
            | cons a l => rfl
          have hle : curTok + estTok it ≤ maxTokens := by
            by_contra hgt
            push_neg at hgt
            apply hcond
            rw [Bool.and_eq_true, Bool.not_eq_true']
            exact ⟨decide_eq_true hgt, hcur'⟩
          rw [chunkTokens_append, ← htok]
          unfold chunkTokens
          simp only [List.map_cons, List.map_nil, List.sum_cons, List.sum_nil]
          omega

/-- C7: for every item list and positive budget, every chunk produced by
chunk_data is nonempty, and its estimated token total exceeds the budget
only when the chunk is a single oversized item. -/
theorem c7_chunk_bounds (items : List NewsItem) (maxTokens : Nat)
    (_hpos : 0 < maxTokens) :
    ∀ c ∈ chunk_data items maxTokens,
      c ≠ [] ∧ (chunkTokens c ≤ maxTokens ∨ ∃ it, c = [it] ∧ estTok it > maxTokens) := by
  intro c hc
  exact packChunks_sound maxTokens _ [] 0 rfl (Or.inl rfl) c hc

def c7Item : NewsItem := ⟨"title one", "0900", "pub", ["hello world"]⟩

/-- C7 witness: a concrete run of chunk_data at budget 10000. -/
theorem c7_witness :
    0 < 10000 ∧
      ([c7Item] ≠ [] ∧
        (chunkTokens [c7Item] ≤ 10000 ∨ ∃ it, [c7Item] = [it] ∧ estTok it > 10000)) :=
  ⟨by decide, c7_chunk_bounds [c7Item] 10000 (by decide) [c7Item] (by decide)⟩

/-- Association-list lookup with Python dict semantics (unique keys; first
match wins). -/
def alookup {α β : Type} [DecidableEq α] (k : α) : List (α × β) → Option β
  | [] => none
  | (a, b) :: t => if a = k then some b else alookup k t

/-- `d[k] = v`: update in place when the key is present, append otherwise
(Python dicts keep the original position on update). -/
def aupdate {α β : Type} [DecidableEq α] (k : α) (v : β) : List (α × β) → List (α × β)
  | [] => [(k, v)]
  | (a, b) :: t => if a = k then (k, v) :: t else (a, b) :: aupdate k v t

/-- `del d[k]`: remove the (unique) entry for the key. -/
def adelete {α β : Type} [DecidableEq α] (k : α) : List (α × β) → List (α × β)
  | [] => []
  | (a, b) :: t => if a = k then t else (a, b) :: adelete k t

/-- A row of the `gemini_model_usage` table, with the columns the manager
selects. -/
structure UsageRow where
  rpmRequests : Nat
  rpmWindowStart : ℚ
  tpmTokens : Nat
  rpdRequests : Nat
  lastUsedDay : String
  strikes : Nat
deriving DecidableEq

/-- The in-memory state of KeyManager (dicts as association lists, the
deque as a list with head = left, the set as a list used for membership),
together with the `gemini_model_usage` table keyed by (key_hash, model_id).
The unread `gemini_key_status` table is not modelled. -/
structure KMState where
  nameToKey : List (String × String)
  keyToName : List (String × String)
  keyToHash : List (String × String)
  keyMetadata : List (String × String)
  availableKeys : List String
  cooldownKeys : List (String × ℚ)
  deadKeys : List String
  modelUsage : List ((String × String) × UsageRow)
deriving DecidableEq

/-- One entry of KeyManager.MODELS_CONFIG. -/
structure ModelConfig where
  model_id : String
  tier : String
  display : String
  rpm : Nat
  tpm : Nat
  rpd : Nat
deriving DecidableEq

/-- KeyManager.MODELS_CONFIG. -/
def MODELS_CONFIG : List (String × ModelConfig) := [
  ("gemini-3-pro-paid", ⟨"gemini-3-pro-preview", "paid", "Gemini 3 Pro (Paid)", 25, 1000000, 250⟩),
  ("gemini-3-flash-paid", ⟨"gemini-3-flash-preview", "paid", "Gemini 3 Flash (Paid)", 1000, 4000000, 10000⟩),
  ("gemini-2.5-pro-paid", ⟨"gemini-2.5-pro", "paid", "Gemini 2.5 Pro (Paid)", 150, 2000000, 10000⟩),
  ("gemini-2.5-flash-paid", ⟨"gemini-2.5-flash", "paid", "Gemini 2.5 Flash (Paid)", 1000, 4000000, 10000⟩),
  ("gemini-2.5-flash-lite-paid", ⟨"gemini-2.5-flash-lite", "paid", "Gemini 2.5 Flash Lite (Paid)", 4000, 4000000, 1000000⟩),
  ("gemini-2.0-flash-paid", ⟨"gemini-2.0-flash", "paid", "Gemini 2.0 Flash (Paid)", 1000, 4000000, 10000⟩),
  ("gemini-3-flash-free", ⟨"gemini-3-flash-preview", "free", "Gemini 3 Flash (Free)", 5, 250000, 10000⟩),
  ("gemini-3-pro-free", ⟨"gemini-3-pro-preview", "free", "Gemini 3 Pro (Free)", 2, 32000, 50⟩),
  ("gemini-2.5-flash-free", ⟨"gemini-2.5-flash", "free", "Gemini 2.5 Flash (Free)", 5, 250000, 10000⟩),
  ("gemini-2.5-pro-free", ⟨"gemini-2.5-pro", "free", "Gemini 2.5 Pro (Free)", 2, 32000, 50⟩),
  ("gemini-2.5-flash-lite-free", ⟨"gemini-2.5-flash-lite", "free", "Gemini 2.5 Flash Lite (Free)", 10, 250000, 10000⟩),
  ("gemini-2.0-flash-free", ⟨"gemini-2.0-flash", "free", "Gemini 2.0 Flash (Free)", 10, 1000000, 1500⟩),
  ("gemini-2.0-flash-lite-free", ⟨"gemini-2.0-flash-lite", "free", "Gemini 2.0 Flash Lite (Free)", 15, 1000000, 1500⟩),
  ("gemma-3-27b", ⟨"gemma-3-27b-it", "free", "Gemma 3 27B", 30, 15000, 10000⟩),
  ("gemma-3-12b", ⟨"gemma-3-12b-it", "free", "Gemma 3 12B", 30, 15000, 10000⟩)]

/-- KeyManager.estimate_tokens: `0` on falsy text, else
`int(len(text) / 2.5) + 1`. -/
def estimate_tokens (text : String) : Nat :=
  if text = "" then 0 else 2 * text.length / 5 + 1

/-- KeyManager._check_key_limits, as a pure function of the state, the
current time and the current UTC day string.  A missing hash or usage row,
like a DB error, admits with wait 0. -/
def check_key_limits (s : KMState) (keyVal modelId : String)
    (rpmLimit tpmLimit rpdLimit : Nat) (estimatedTokens : Nat)
    (now : ℚ) (today : String) : ℚ :=
  match alookup keyVal s.keyToHash with
  | none => 0
  | some keyHash =>
    match alookup (keyHash, modelId) s.modelUsage with
    | none => 0
    | some row =>
      if row.lastUsedDay = today ∧ row.rpdRequests ≥ rpdLimit then 3600
      else if now - row.rpmWindowStart ≥ 60 then 0
      else if row.rpmRequests ≥ rpmLimit then max 1 (60 - (now - row.rpmWindowStart))
      else if row.tpmTokens + estimatedTokens > tpmLimit then
        max 1 (60 - (now - row.rpmWindowStart))
      else 0

/-- KeyManager._reclaim_keys: move every cooldown entry whose release time
has passed to the tail of the rotation, in cooldown order. -/
def reclaim_keys (s : KMState) (now : ℚ) : KMState :=
  { s with
    availableKeys :=
      s.availableKeys ++ (s.cooldownKeys.filter (fun kt => decide (now ≥ kt.2))).map Prod.fst,
    cooldownKeys := s.cooldownKeys.filter (fun kt => decide (now < kt.2)) }

/-- The arguments of one admission request, resolved from the config. -/
structure AdmissionQuery where
  requiredTier : String
  modelId : String
  rpmLimit : Nat
  tpmLimit : Nat
  rpdLimit : Nat
  estimatedTokens : Nat
  now : ℚ
  today : String
deriving DecidableEq

/-- `min` against a possibly-infinite best wait (float('inf') is `none`). -/
def minOpt (b : Option ℚ) (w : ℚ) : Option ℚ :=
  match b with
  | none => some w
  | some x => some (min x w)

/-- The decision taken for one candidate key in get_key's scan loop:
either keep scanning (with possibly updated cooldown map and best wait) or
check the key out. -/
inductive StepAction where
  | skip (cooldown : List (String × ℚ)) (bestWait : Option ℚ)
  | take (cooldown : List (String × ℚ))
deriving DecidableEq

/-- One iteration of get_key's scan loop: strict tier check, dead check,
cooldown penalty box (expired entries are deleted and the key falls through
to the limit check), then _check_key_limits.  (Python indexes
key_metadata[key_val] directly and would raise on a key without metadata;
the manager never constructs such a state, and the model uses the 'free'
default tier there.) -/
def scanStep (s : KMState) (q : AdmissionQuery) (keyVal : String)
    (cooldown : List (String × ℚ)) (bestWait : Option ℚ) : StepAction :=
  let keyTier := (alookup keyVal s.keyMetadata).getD "free"
  if (q.requiredTier = "paid" ∧ keyTier ≠ "paid") ∨
      (q.requiredTier = "free" ∧ keyTier ≠ "free") then
    .skip cooldown bestWait
  else if keyVal ∈ s.deadKeys then
    .skip cooldown bestWait
  else
    match alookup keyVal cooldown with
    | some releaseTime =>
      if q.now < releaseTime then
        .skip cooldown (minOpt bestWait (releaseTime - q.now))
      else
        let cd := adelete keyVal cooldown
        let wait := check_key_limits s keyVal q.modelId q.rpmLimit q.tpmLimit q.rpdLimit
          q.estimatedTokens q.now q.today
        if wait = 0 then .take cd else .skip cd (minOpt bestWait wait)
    | none =>
      let wait := check_key_limits s keyVal q.modelId q.rpmLimit q.tpmLimit q.rpdLimit
        q.estimatedTokens q.now q.today
      if wait = 0 then .take cooldown else .skip cooldown (minOpt bestWait wait)

/-- The outcome of the scan loop. -/
inductive ScanResult where
  | found (name : Option String) (key : String)
  | exhausted (bestWait : Option ℚ)
deriving DecidableEq

/-- get_key's while loop.  The fuel is `limit_checked_count` (initialised to
the rotation length); on success the rotation prefix is pushed back to the
front of the remaining deque and the checked-out key is *not* returned to
it; on exhaustion the rotation is appended at the tail. -/
def getKeyScan (s : KMState) (q : AdmissionQuery) :
    Nat → List String → List String → List (String × ℚ) → Option ℚ →
    ScanResult × List String × List (String × ℚ)
  | 0, avail, rotation, cooldown, bestWait => (.exhausted bestWait, avail ++ rotation, cooldown)
  | _ + 1, [], rotation, cooldown, bestWait => (.exhausted bestWait, rotation, cooldown)
  | fuel + 1, keyVal :: availRest, rotation, cooldown, bestWait =>
    match scanStep s q keyVal cooldown bestWait with
    | .take cd => (.found (alookup keyVal s.keyToName) keyVal, rotation ++ availRest, cd)
    | .skip cd bw => getKeyScan s q fuel availRest (rotation ++ [keyVal]) cd bw

/-- get_key after config resolution, on the already-reclaimed state: the
fatal token-guard check, then the scan, then the empty-pool handling. -/
def get_key_core (s1 : KMState) (q : AdmissionQuery) :
    (Option String × Option String × ℚ × String) × KMState :=
  if q.estimatedTokens > q.tpmLimit then ((none, none, -1, q.modelId), s1)
  else
    match getKeyScan s1 q s1.availableKeys.length s1.availableKeys [] s1.cooldownKeys none with
    | (.found name keyVal, avail2, cd2) =>
      ((name, some keyVal, 0, q.modelId),
        { s1 with availableKeys := avail2, cooldownKeys := cd2 })
    | (.exhausted bestWait, avail2, cd2) =>
      let s2 : KMState := { s1 with availableKeys := avail2, cooldownKeys := cd2 }
      match bestWait with
      | some w => ((none, none, w, q.modelId), s2)
      | none =>
        let matchingKeys := (s2.keyMetadata.filter
          (fun km => decide (km.2 = q.requiredTier) && !s2.deadKeys.contains km.1)).map Prod.fst
        if matchingKeys = [] then ((none, none, 0, q.modelId), s2)
        else
          let cooldownWaits := ((s2.cooldownKeys.filter
            (fun kt => matchingKeys.contains kt.1 && decide (q.now < kt.2))).map
              (fun kt => kt.2 - q.now))
          match cooldownWaits with
          | [] => ((none, none, 5, q.modelId), s2)
          | w :: ws => ((none, none, ws.foldl min w, q.modelId), s2)

/-- KeyManager.get_key: reclaim expired cooldowns, resolve the config
(falling back to the safe defaults rpm 5 / tpm 32000 / rpd 10000 / free /
'unknown' on an unknown config_id, and normalising an invalid tier to
'free'), then run the token guard and the scan. -/
def get_key (s : KMState) (configId : String) (estimatedTokens : Nat)
    (now : ℚ) (today : String) :
    (Option String × Option String × ℚ × String) × KMState :=
  let s1 := reclaim_keys s now
  match alookup configId MODELS_CONFIG with
  | none => get_key_core s1 ⟨"free", "unknown", 5, 32000, 10000, estimatedTokens, now, today⟩
  | some config =>
    let tier := if config.tier ≠ "paid" ∧ config.tier ≠ "free" then "free" else config.tier
    get_key_core s1
      ⟨tier, config.model_id, config.rpm, config.tpm, config.rpd, estimatedTokens, now, today⟩

/-- The row written by report_usage: reset or advance the minute window,
reset or advance the daily counter, clear strikes; a missing row is
initialised to one request with the given tokens. -/
def usageUpdate (row? : Option UsageRow) (tokens : Nat) (now : ℚ) (today : String) : UsageRow :=
  match row? with
  | some row =>
    let minute :=
      if now - row.rpmWindowStart ≥ 60 then (1, now, tokens)
      else (row.rpmRequests + 1, row.rpmWindowStart, row.tpmTokens + tokens)
    let newRpd := if row.lastUsedDay ≠ today then 1 else row.rpdRequests + 1
    ⟨minute.1, minute.2.1, minute.2.2, newRpd, today, 0⟩
  | none => ⟨1, now, tokens, 1, today, 0⟩

/-- KeyManager.report_usage: update the isolated (key_hash, model_id) usage
bucket, then return the key to the rotation tail.  `none` models the
KeyError Python raises on a key without a recorded hash; DB failures (which
in Python would skip the append) are not modelled. -/
def report_usage (s : KMState) (key : String) (tokens : Nat) (modelId : String)
    (now : ℚ) (today : String) : Option KMState :=
  match alookup key s.keyToHash with
  | none => none
  | some keyHash =>
    some { s with
      modelUsage := aupdate (keyHash, modelId)
        (usageUpdate (alookup (keyHash, modelId) s.modelUsage) tokens now today) s.modelUsage,
      availableKeys := s.availableKeys ++ [key] }

/-- KeyManager.report_failure: an informational error returns the key to
the rotation; otherwise the key goes to the penalty box for 60 seconds.
(The write to the unread gemini_key_status table is not modelled.) -/
def report_failure (s : KMState) (key : String) (isInfoError : Bool) (now : ℚ) : KMState :=
  if isInfoError then { s with availableKeys := s.availableKeys ++ [key] }
  else { s with cooldownKeys := aupdate key (now + 60) s.cooldownKeys }

def c5Row : UsageRow := ⟨1, 0, 0, 50, "2026-10-12", 0⟩

def c5State : KMState :=
  ⟨[("n1", "k1")], [("k1", "n1")], [("k1", "h1")], [("k1", "free")], ["k1"], [], [],
    [(("h1", "m1"), c5Row)]⟩

/-- C5 counterexample: a key whose minute window has long expired
(now - window_start = 1000 ≥ 60) but whose daily counter is at the limit is
rejected with 3600 seconds, not admitted with wait 0 — the daily check runs
first. -/
theorem c5_counterexample :
    (1000 : ℚ) - c5Row.rpmWindowStart ≥ 60 ∧
    check_key_limits c5State "k1" "m1" 2 32000 50 0 1000 "2026-10-12" = 3600 ∧
    (3600 : ℚ) ≠ 0 := by
  refine ⟨by norm_num [c5Row], ?_, by norm_num⟩
  simp [check_key_limits, c5State, c5Row, alookup]

/-- C5 (amended): for a key with an existing usage row, the daily check has
priority — at or above requests_per_day (on the same UTC day) the wait is
exactly 3600 even if the minute window has expired; otherwise an expired
window admits with 0; otherwise exceeding either per-minute limit rejects
with the remainder of the window clamped below at 1 second. -/
theorem c5_amended (s : KMState) (keyVal modelId keyHash : String) (row : UsageRow)
    (rpmLimit tpmLimit rpdLimit estimatedTokens : Nat) (now : ℚ) (today : String)
    (hh : alookup keyVal s.keyToHash = some keyHash)
    (hr : alookup (keyHash, modelId) s.modelUsage = some row) :
    (row.lastUsedDay = today ∧ row.rpdRequests ≥ rpdLimit →
      check_key_limits s keyVal modelId rpmLimit tpmLimit rpdLimit estimatedTokens now today
        = 3600) ∧
    (¬ (row.lastUsedDay = today ∧ row.rpdRequests ≥ rpdLimit) →
      now - row.rpmWindowStart ≥ 60 →
      check_key_limits s keyVal modelId rpmLimit tpmLimit rpdLimit estimatedTokens now today
        = 0) ∧
    (¬ (row.lastUsedDay = today ∧ row.rpdRequests ≥ rpdLimit) →
      now - row.rpmWindowStart < 60 →
      (row.rpmRequests ≥ rpmLimit ∨ row.tpmTokens + estimatedTokens > tpmLimit) →
      check_key_limits s keyVal modelId rpmLimit tpmLimit rpdLimit estimatedTokens now today
        = max 1 (60 - (now - row.rpmWindowStart))) := by
  unfold check_key_limits
  simp only [hh, hr]
  refine ⟨?_, ?_, ?_⟩
  · intro hd
    rw [if_pos hd]
  · intro hd hwin
    rw [if_neg hd, if_pos hwin]
  · intro hd hwin hexc
    rw [if_neg hd, if_neg (not_le.mpr hwin)]
    rcases hexc with h | h
    · rw [if_pos h]
    · by_cases h2 : row.rpmRequests ≥ rpmLimit
      · rw [if_pos h2]
      · rw [if_neg h2, if_pos h]

/-- C5 witness: the amended statement instantiated at a concrete state. -/
theorem c5_witness :
    (c5Row.lastUsedDay = "2026-10-12" ∧ c5Row.rpdRequests ≥ 50 →
      check_key_limits c5State "k1" "m1" 2 32000 50 0 1000 "2026-10-12" = 3600) ∧
    (¬ (c5Row.lastUsedDay = "2026-10-12" ∧ c5Row.rpdRequests ≥ 50) →
      (1000 : ℚ) - c5Row.rpmWindowStart ≥ 60 →
      check_key_limits c5State "k1" "m1" 2 32000 50 0 1000 "2026-10-12" = 0) ∧
    (¬ (c5Row.lastUsedDay = "2026-10-12" ∧ c5Row.rpdRequests ≥ 50) →
      (1000 : ℚ) - c5Row.rpmWindowStart < 60 →
      (c5Row.rpmRequests ≥ 2 ∨ c5Row.tpmTokens + 0 > 32000) →
      check_key_limits c5State "k1" "m1" 2 32000 50 0 1000 "2026-10-12"
        = max 1 (60 - ((1000 : ℚ) - c5Row.rpmWindowStart))) :=
  c5_amended c5State "k1" "m1" "h1" c5Row 2 32000 50 0 1000 "2026-10-12"
    (by decide) (by decide)

/-- Every return path of get_key_core carries the resolved model id. -/
theorem get_key_core_modelId (s1 : KMState) (q : AdmissionQuery) :
    (get_key_core s1 q).1.2.2.2 = q.modelId := by
  unfold get_key_core
  repeat' split
  all_goals try rfl
  all_goals dsimp only
  all_goals repeat' split
  all_goals rfl

def kmEmpty : KMState := ⟨[], [], [], [], [], [], [], []⟩

/-- C10: an unknown config_id makes get_key proceed with the safe free-tier
defaults (rpm 5, tpm 32000, rpd 10000, tier 'free') and resolve the model
id to the string 'unknown' on every return path. -/
theorem c10_unknown_config (s : KMState) (configId : String)
    (estimatedTokens : Nat) (now : ℚ) (today : String)
    (h : alookup configId MODELS_CONFIG = none) :
    get_key s configId estimatedTokens now today =
      get_key_core (reclaim_keys s now)
        ⟨"free", "unknown", 5, 32000, 10000, estimatedTokens, now, today⟩ ∧
    (get_key s configId estimatedTokens now today).1.2.2.2 = "unknown" := by
  have h1 : get_key s configId estimatedTokens now today =
      get_key_core (reclaim_keys s now)
        ⟨"free", "unknown", 5, 32000, 10000, estimatedTokens, now, today⟩ := by
    unfold get_key
    rw [h]
  exact ⟨h1, by rw [h1]; exact get_key_core_modelId _ _⟩

/-- C10 witness: a config_id outside MODELS_CONFIG, on a concrete state. -/
theorem c10_witness :
    get_key kmEmpty "nope" 7 100 "2026-10-12" =
      get_key_core (reclaim_keys kmEmpty 100)
        ⟨"free", "unknown", 5, 32000, 10000, 7, 100, "2026-10-12"⟩ ∧
    (get_key kmEmpty "nope" 7 100 "2026-10-12").1.2.2.2 = "unknown" :=
  c10_unknown_config kmEmpty "nope" 7 100 "2026-10-12" (by decide)

theorem adelete_sublist {α β : Type} [DecidableEq α] (k : α) (l : List (α × β)) :
    List.Sublist (adelete k l) l := by
  induction l with
  | nil => simp [adelete]
  | cons a t ih =>
    obtain ⟨a1, a2⟩ := a
    unfold adelete
    by_cases h : a1 = k
    · rw [if_pos h]
      exact List.sublist_cons_self _ _
    · rw [if_neg h]
      exact List.Sublist.cons₂ _ ih

theorem alookup_none_iff {α β : Type} [DecidableEq α] (k : α) (l : List (α × β)) :
    alookup k l = none ↔ k ∉ l.map Prod.fst := by
  induction l with
  | nil => simp [alookup]
  | cons a t ih =>
    obtain ⟨a1, a2⟩ := a
    unfold alookup
    by_cases h : a1 = k
    · subst h
      simp
    · rw [if_neg h, List.map_cons, ih]
      constructor
      · intro hn hmem
        rcases List.mem_cons.mp hmem with rfl | hm
        · exact h rfl
        · exact hn hm
      · intro hn hm
        exact hn (List.mem_cons_of_mem _ hm)

theorem adelete_notmem {α β : Type} [DecidableEq α] (k : α) (l : List (α × β))
    (h : (l.map Prod.fst).Nodup) : k ∉ (adelete k l).map Prod.fst := by
  induction l with
  | nil => simp [adelete]
  | cons a t ih =>
    obtain ⟨a1, a2⟩ := a
    rw [List.map_cons, List.nodup_cons] at h
    unfold adelete
    by_cases hk : a1 = k
    · rw [if_pos hk]
      subst hk
      exact h.1
    · rw [if_neg hk, List.map_cons]
      intro hmem
      rcases List.mem_cons.mp hmem with rfl | hm
      · exact hk rfl
      · exact ih h.2 hm

theorem check_key_limits_nonneg (s : KMState) (keyVal modelId : String)
    (rpmLimit tpmLimit rpdLimit estimatedTokens : Nat) (now : ℚ) (today : String) :
    0 ≤ check_key_limits s keyVal modelId rpmLimit tpmLimit rpdLimit estimatedTokens
      now today := by
  unfold check_key_limits
  rcases hk : alookup keyVal s.keyToHash with _ | keyHash
  · simp only [hk]
    exact le_rfl
  · simp only [hk]
    rcases hr : alookup (keyHash, modelId) s.modelUsage with _ | row
    · simp only [hr]
      exact le_rfl
    · simp only [hr]
      split_ifs
      all_goals norm_num

/-- The wait invariant carried along the scan: every finite best wait seen
so far is nonnegative. -/
def waitsOk (b : Option ℚ) : Prop := ∀ w, b = some w → 0 ≤ w

theorem minOpt_ok {b : Option ℚ} {x : ℚ} (hb : waitsOk b) (hx : 0 ≤ x) :
    waitsOk (minOpt b x) := by
  intro w hw
  cases b with
  | none =>
    unfold minOpt at hw
    simp at hw
    rw [← hw]
    exact hx
  | some y =>
    unfold minOpt at hw
    simp at hw
    rw [← hw]
    exact le_min (hb y rfl) hx

theorem scanStep_take {s : KMState} {q : AdmissionQuery} {keyVal : String}
    {cooldown : List (String × ℚ)} {bestWait : Option ℚ} {cd : List (String × ℚ)}
    (h : scanStep s q keyVal cooldown bestWait = .take cd) :
    (cd = cooldown ∧ alookup keyVal cooldown = none) ∨ cd = adelete keyVal cooldown := by
  unfold scanStep at h
  dsimp only at h
  split at h
  · exact StepAction.noConfusion h
  · split at h
    · exact StepAction.noConfusion h
    · split at h
      case _ releaseTime heq =>
        split at h
        · exact StepAction.noConfusion h
        · split at h
          · injection h with h1
            right
            exact h1.symm
          · exact StepAction.noConfusion h
      case _ heq =>
        split at h
        · injection h with h1
          left
          exact ⟨h1.symm, heq⟩
        · exact StepAction.noConfusion h

theorem scanStep_skip {s : KMState} {q : AdmissionQuery} {keyVal : String}
    {cooldown : List (String × ℚ)} {bestWait : Option ℚ} {cd : List (String × ℚ)}
    {bw : Option ℚ} (h : scanStep s q keyVal cooldown bestWait = .skip cd bw) :
    cd = cooldown ∨ cd = adelete keyVal cooldown := by
  unfold scanStep at h
  dsimp only at h
  split at h
  · injection h with h1 h2
    left
    exact h1.symm
  · split at h
    · injection h with h1 h2
      left
      exact h1.symm
    · split at h
      case _ releaseTime heq =>
        split at h
        · injection h with h1 h2
          left
          exact h1.symm
        · split at h
          · exact StepAction.noConfusion h
          · injection h with h1 h2
            right
            exact h1.symm
      case _ heq =>
        split at h
        · exact StepAction.noConfusion h
        · injection h with h1 h2
          left
          exact h1.symm

theorem scanStep_skip_wait {s : KMState} {q : AdmissionQuery} {keyVal : String}
    {cooldown : List (String × ℚ)} {bestWait : Option ℚ} {cd : List (String × ℚ)}
    {bw : Option ℚ} (h : scanStep s q keyVal cooldown bestWait = .skip cd bw)
    (hb : waitsOk bestWait) : waitsOk bw := by
  unfold scanStep at h
  dsimp only at h
  split at h
  · injection h with h1 h2
    rw [← h2]
    exact hb
  · split at h
    · injection h with h1 h2
      rw [← h2]
      exact hb
    · split at h
      case _ releaseTime heq =>
        split at h
        case isTrue hlt =>
          injection h with h1 h2
          rw [← h2]
          exact minOpt_ok hb (by linarith)
        case isFalse hlt =>
          split at h
          · exact StepAction.noConfusion h
          case isFalse hw0 =>
            injection h with h1 h2
            rw [← h2]
            exact minOpt_ok hb (check_key_limits_nonneg _ _ _ _ _ _ _ _ _)
      case _ heq =>
        split at h
        · exact StepAction.noConfusion h
        case isFalse hw0 =>
          injection h with h1 h2
          rw [← h2]
          exact minOpt_ok hb (check_key_limits_nonneg _ _ _ _ _ _ _ _ _)

theorem getKeyScan_exhausted_nonneg (s : KMState) (q : AdmissionQuery) :
    ∀ (fuel : Nat) (avail rotation : List String) (cooldown : List (String × ℚ))
      (bestWait : Option ℚ) (w : ℚ) (avail2 : List String) (cd2 : List (String × ℚ)),
      getKeyScan s q fuel avail rotation cooldown bestWait =
        (.exhausted (some w), avail2, cd2) →
      waitsOk bestWait → 0 ≤ w := by
  intro fuel
  induction fuel with
  | zero =>
    intro avail rot cd bw w a2 c2 h hb
    simp only [getKeyScan] at h
    have h1 := congrArg Prod.fst h
    simp only [ScanResult.exhausted.injEq] at h1
    exact hb w h1
  | succ fuel ih =>
    intro avail rot cd bw w a2 c2 h hb
    cases avail with
    | nil =>
      simp only [getKeyScan] at h
      have h1 := congrArg Prod.fst h
      simp only [ScanResult.exhausted.injEq] at h1
      exact hb w h1
    | cons k rest =>
      simp only [getKeyScan] at h
      cases hstep : scanStep s q k cd bw with
      | take cd' =>
        simp only [hstep] at h
        have h1 := congrArg Prod.fst h
        simp at h1
      | skip cd' bw' =>
        simp only [hstep] at h
        exact ih rest (rot ++ [k]) cd' bw' w a2 c2 h (scanStep_skip_wait hstep hb)

theorem getKeyScan_found_mem (s : KMState) (q : AdmissionQuery) :
    ∀ (fuel : Nat) (avail rotation : List String) (cooldown : List (String × ℚ))
      (bestWait : Option ℚ) (name : Option String) (key : String)
      (avail2 : List String) (cd2 : List (String × ℚ)),
      getKeyScan s q fuel avail rotation cooldown bestWait =
        (.found name key, avail2, cd2) →
      key ∈ avail := by
  intro fuel
  induction fuel with
  | zero =>
    intro avail rot cd bw n k a2 c2 h
    simp only [getKeyScan] at h
    have h1 := congrArg Prod.fst h
    simp at h1
  | succ fuel ih =>
    intro avail rot cd bw n k a2 c2 h
    cases avail with
    | nil =>
      simp only [getKeyScan] at h
      have h1 := congrArg Prod.fst h
      simp at h1
    | cons k0 rest =>
      simp only [getKeyScan] at h
      cases hstep : scanStep s q k0 cd bw with
      | take cd' =>
        simp only [hstep] at h
        have h1 := congrArg Prod.fst h
        simp only [ScanResult.found.injEq] at h1
        rw [← h1.2]
        exact List.mem_cons_self _ _
      | skip cd' bw' =>
        simp only [hstep] at h
        exact List.mem_cons_of_mem _ (ih rest (rot ++ [k0]) cd' bw' n k a2 c2 h)

theorem getKeyScan_found_props (s : KMState) (q : AdmissionQuery) :
    ∀ (fuel : Nat) (avail rotation : List String) (cooldown : List (String × ℚ))
      (bestWait : Option ℚ) (name : Option String) (key : String)
      (avail2 : List String) (cd2 : List (String × ℚ)),
      getKeyScan s q fuel avail rotation cooldown bestWait =
        (.found name key, avail2, cd2) →
      (rotation ++ avail).Nodup →
      (cooldown.map Prod.fst).Nodup →
      key ∉ avail2 ∧ key ∉ cd2.map Prod.fst := by
  intro fuel
  induction fuel with
  | zero =>
    intro avail rot cd bw n k a2 c2 h hA hC
    simp only [getKeyScan] at h
    have h1 := congrArg Prod.fst h
    simp at h1
  | succ fuel ih =>
    intro avail rot cd bw n k a2 c2 h hA hC
    cases avail with
    | nil =>
      simp only [getKeyScan] at h
      have h1 := congrArg Prod.fst h
      simp at h1
    | cons k0 rest =>
      simp only [getKeyScan] at h
      cases hstep : scanStep s q k0 cd bw with
      | take cd' =>
        simp only [hstep] at h
        have h1 := congrArg Prod.fst h
        simp only [ScanResult.found.injEq] at h1
        have h2 := congrArg (fun x => x.2.1) h
        have h3 := congrArg (fun x => x.2.2) h
        dsimp only at h2 h3
        rw [← h1.2, ← h2, ← h3]
        have hsplit := List.nodup_append.mp hA
        have hk0rest : k0 ∉ rest := (List.nodup_cons.mp hsplit.2.1).1
        have hk0rot : k0 ∉ rot := by
          intro hmem
          exact hsplit.2.2 hmem (List.mem_cons_self _ _)
        constructor
        · intro hmem
          rcases List.mem_append.mp hmem with hm | hm
          · exact hk0rot hm
          · exact hk0rest hm
        · rcases scanStep_take hstep with ⟨rfl, hnone⟩ | rfl
          · exact (alookup_none_iff _ _).mp hnone
          · exact adelete_notmem _ _ hC
      | skip cd' bw' =>
        simp only [hstep] at h
        have hA' : ((rot ++ [k0]) ++ rest).Nodup := by
          rw [List.append_assoc, List.singleton_append]
          exact hA
        have hC' : (cd'.map Prod.fst).Nodup := by
          rcases scanStep_skip hstep with rfl | rfl
          · exact hC
          · exact List.Nodup.sublist (List.Sublist.map _ (adelete_sublist _ _)) hC
        exact ih rest (rot ++ [k0]) cd' bw' n k a2 c2 h hA' hC'

theorem foldl_min_nonneg (w : ℚ) (ws : List ℚ) (hw : 0 ≤ w)
    (hws : ∀ x ∈ ws, 0 ≤ x) : 0 ≤ ws.foldl min w := by
  induction ws generalizing w with
  | nil => exact hw
  | cons a t ih =>
    rw [List.foldl_cons]
    exact ih (min w a) (le_min hw (hws a (List.mem_cons_self _ _)))
      (fun x hx => hws x (List.mem_cons_of_mem _ hx))

/-- get_key always factors through get_key_core on the reclaimed state. -/
theorem get_key_as_core (s : KMState) (cfg : String) (est : Nat) (now : ℚ)
    (today : String) :
    ∃ q : AdmissionQuery,
      get_key s cfg est now today = get_key_core (reclaim_keys s now) q := by
  unfold get_key
  rcases h : alookup cfg MODELS_CONFIG with _ | config
  · exact ⟨_, rfl⟩
  · exact ⟨_, rfl⟩

/-- The fatal signal (no names, wait -1.0) is produced exactly when the
estimate exceeds the resolved tokens-per-minute ceiling, regardless of the
pool contents. -/
theorem get_key_core_fatal_iff (s1 : KMState) (q : AdmissionQuery) :
    (get_key_core s1 q).1 = (none, none, -1, q.modelId) ↔
      q.estimatedTokens > q.tpmLimit := by
  constructor
  · intro h
    by_contra hle
    unfold get_key_core at h
    rw [if_neg hle] at h
    split at h
    case _ name keyVal avail2 cd2 heq =>
      have h2 := congrArg (fun x => x.2.1) h
      simp at h2
    case _ bw avail2 cd2 heq =>
      dsimp only at h
      split at h
      case _ w =>
        have hw := congrArg (fun x => x.2.2.1) h
        dsimp only at hw
        have h0 : 0 ≤ w :=
          getKeyScan_exhausted_nonneg s1 q _ _ _ _ _ w _ _ heq
            (fun w' hw' => Option.noConfusion hw')
        rw [hw] at h0
        norm_num at h0
      case _ =>
        split at h
        · have h2 := congrArg (fun x => x.2.2.1) h
          dsimp only at h2
          norm_num at h2
        · split at h
          · have h2 := congrArg (fun x => x.2.2.1) h
            dsimp only at h2
            norm_num at h2
          case _ w ws heqw =>
            have hww := congrArg (fun x => x.2.2.1) h
            dsimp only at hww
            have hel : ∀ x ∈ w :: ws, 0 ≤ x := by
              intro x hx
              rw [← heqw] at hx
              obtain ⟨kt, hkt, hxeq⟩ := List.mem_map.mp hx
              have hf := (List.mem_filter.mp hkt).2
              rw [Bool.and_eq_true] at hf
              have hlt := of_decide_eq_true hf.2
              rw [← hxeq]
              linarith
            have h0 := foldl_min_nonneg w ws (hel w (List.mem_cons_self _ _))
              (fun x hx => hel x (List.mem_cons_of_mem _ hx))
            rw [hww] at h0
            norm_num at h0
  · intro h
    unfold get_key_core
    rw [if_pos h]

/-- A key returned by get_key_core was a member of the rotation it scanned. -/
theorem get_key_core_key_mem (s1 : KMState) (q : AdmissionQuery)
    (res : (Option String × Option String × ℚ × String) × KMState) (key : String)
    (h : get_key_core s1 q = res) (hk : res.1.2.1 = some key) :
    key ∈ s1.availableKeys := by
  subst h
  unfold get_key_core at hk
  split at hk
  · simp at hk
  · split at hk
    case _ n0 k0 avail2 cd2 heq =>
      simp only at hk
      rw [Option.some.injEq] at hk
      rw [← hk]
      exact getKeyScan_found_mem s1 q _ _ _ _ _ _ _ _ _ heq
    case _ bw avail2 cd2 heq =>
      dsimp only at hk
      split at hk
      · simp at hk
      · split at hk
        · simp at hk
        · split at hk
          · simp at hk
          · simp at hk

/-- A key checked out by get_key_core is in neither the returned rotation
nor the returned cooldown map. -/
theorem get_key_core_found_props (s1 : KMState) (q : AdmissionQuery)
    (name : Option String) (key : String) (wait : ℚ) (mid : String) (sOut : KMState)
    (h : get_key_core s1 q = ((name, some key, wait, mid), sOut))
    (hA : s1.availableKeys.Nodup)
    (hC : (s1.cooldownKeys.map Prod.fst).Nodup) :
    key ∉ sOut.availableKeys ∧ key ∉ sOut.cooldownKeys.map Prod.fst := by
  unfold get_key_core at h
  split at h
  · have h2 := congrArg (fun x => x.1.2.1) h
    simp at h2
  · split at h
    case _ n0 k0 avail2 cd2 heq =>
      have hkey : k0 = key := by
        have h2 := congrArg (fun x => x.1.2.1) h
        simpa using h2
      have hout : sOut = { s1 with availableKeys := avail2, cooldownKeys := cd2 } := by
        have h2 := congrArg Prod.snd h
        exact h2.symm
      have hprops := getKeyScan_found_props s1 q _ _ _ _ _ _ _ _ _ heq
        (by simpa using hA) hC
      rw [hout, ← hkey]
      exact hprops
    case _ bw avail2 cd2 heq =>
      dsimp only at h
      split at h
      · have h2 := congrArg (fun x => x.1.2.1) h
        simp at h2
      · split at h
        · have h2 := congrArg (fun x => x.1.2.1) h
          simp at h2
        · split at h
          · have h2 := congrArg (fun x => x.1.2.1) h
            simp at h2
          · have h2 := congrArg (fun x => x.1.2.1) h
            simp at h2

/-- C6: checkout invariant.  If get_key hands out a key with wait 0, the key
is in neither the available rotation nor the cooldown map of the resulting
state, no further get_key on that state can return it, and report_usage
returns it to the rotation tail while updating the matching usage bucket. -/
theorem c6_checkout_invariant (s : KMState) (cfg : String) (est : Nat) (now : ℚ)
    (today : String) (name : Option String) (k : String) (mid : String) (s1 : KMState)
    (hA : s.availableKeys.Nodup)
    (hC : (s.cooldownKeys.map Prod.fst).Nodup)
    (hD : ∀ x ∈ s.availableKeys, x ∉ s.cooldownKeys.map Prod.fst)
    (hget : get_key s cfg est now today = ((name, some k, 0, mid), s1)) :
    k ∉ s1.availableKeys ∧
    k ∉ s1.cooldownKeys.map Prod.fst ∧
    (∀ cfg2 est2 now2 today2,
      (get_key s1 cfg2 est2 now2 today2).1.2.1 ≠ some k) ∧
    (∀ tokens modelId2 now2 today2 s2,
      report_usage s1 k tokens modelId2 now2 today2 = some s2 →
      s2.availableKeys = s1.availableKeys ++ [k] ∧
      ∃ keyHash, alookup k s1.keyToHash = some keyHash ∧
        s2.modelUsage = aupdate (keyHash, modelId2)
          (usageUpdate (alookup (keyHash, modelId2) s1.modelUsage) tokens now2 today2)
          s1.modelUsage) := by
  obtain ⟨q, hq⟩ := get_key_as_core s cfg est now today
  rw [hq] at hget
  have hrelsub : ∀ (now' : ℚ) (cd : List (String × ℚ)) (x : String),
      x ∈ (cd.filter (fun kt => decide (now' ≥ kt.2))).map Prod.fst →
      x ∈ cd.map Prod.fst :=
    fun now' cd x hx => (List.Sublist.map Prod.fst (List.filter_sublist _)).subset hx
  have hAr : (reclaim_keys s now).availableKeys.Nodup := by
    have hrelnd :
        (((s.cooldownKeys.filter (fun kt => decide (now ≥ kt.2))).map Prod.fst)).Nodup :=
      List.Nodup.sublist (List.Sublist.map Prod.fst (List.filter_sublist _)) hC
    exact List.Nodup.append hA hrelnd
      (fun x hx hx2 => hD x hx (hrelsub now s.cooldownKeys x hx2))
  have hCr : ((reclaim_keys s now).cooldownKeys.map Prod.fst).Nodup :=
    List.Nodup.sublist (List.Sublist.map Prod.fst (List.filter_sublist _)) hC
  have h12 := get_key_core_found_props (reclaim_keys s now) q name k 0 mid s1 hget hAr hCr
  refine ⟨h12.1, h12.2, ?_, ?_⟩
  · intro cfg2 est2 now2 today2 hk2
    obtain ⟨q2, hq2⟩ := get_key_as_core s1 cfg2 est2 now2 today2
    rw [hq2] at hk2
    have hmem := get_key_core_key_mem (reclaim_keys s1 now2) q2 _ k rfl hk2
    rcases List.mem_append.mp hmem with hm | hm
    · exact h12.1 hm
    · exact h12.2 (hrelsub now2 s1.cooldownKeys k hm)
  · intro tokens modelId2 now2 today2 s2 hrep
    unfold report_usage at hrep
    rcases hh : alookup k s1.keyToHash with _ | keyHash
    · rw [hh] at hrep
      exact Option.noConfusion hrep
    · rw [hh] at hrep
      rw [Option.some.injEq] at hrep
      rw [← hrep]
      exact ⟨rfl, keyHash, rfl, rfl⟩

def c6State : KMState :=
  ⟨[("n1", "k1")], [("k1", "n1")], [("k1", "h1")], [("k1", "free")], ["k1"], [], [], []⟩

/-- C6 witness: a concrete checkout from a one-key pool. -/
theorem c6_witness :
    "k1" ∉ (KMState.mk [("n1", "k1")] [("k1", "n1")] [("k1", "h1")] [("k1", "free")]
        [] [] [] []).availableKeys ∧
    "k1" ∉ (KMState.mk [("n1", "k1")] [("k1", "n1")] [("k1", "h1")] [("k1", "free")]
        [] [] [] []).cooldownKeys.map Prod.fst ∧
    (∀ cfg2 est2 now2 today2,
      (get_key (KMState.mk [("n1", "k1")] [("k1", "n1")] [("k1", "h1")] [("k1", "free")]
          [] [] [] []) cfg2 est2 now2 today2).1.2.1 ≠ some "k1") ∧
    (∀ tokens modelId2 now2 today2 s2,
      report_usage (KMState.mk [("n1", "k1")] [("k1", "n1")] [("k1", "h1")]
          [("k1", "free")] [] [] [] []) "k1" tokens modelId2 now2 today2 = some s2 →
      s2.availableKeys =
        (KMState.mk [("n1", "k1")] [("k1", "n1")] [("k1", "h1")] [("k1", "free")]
          [] [] [] []).availableKeys ++ ["k1"] ∧
      ∃ keyHash,
        alookup "k1" (KMState.mk [("n1", "k1")] [("k1", "n1")] [("k1", "h1")]
          [("k1", "free")] [] [] [] []).keyToHash = some keyHash ∧
        s2.modelUsage = aupdate (keyHash, modelId2)
          (usageUpdate (alookup (keyHash, modelId2)
            (KMState.mk [("n1", "k1")] [("k1", "n1")] [("k1", "h1")] [("k1", "free")]
              [] [] [] []).modelUsage) tokens now2 today2)
          (KMState.mk [("n1", "k1")] [("k1", "n1")] [("k1", "h1")] [("k1", "free")]
            [] [] [] []).modelUsage) :=
  c6_checkout_invariant c6State "gemini-2.0-flash-free" 10 100 "2026-10-12"
    (some "n1") "k1" "gemini-2.0-flash"
    (KMState.mk [("n1", "k1")] [("k1", "n1")] [("k1", "h1")] [("k1", "free")] [] [] [] [])
    (by decide) (by decide) (by decide) (by rfl)

/-- The response fields generate_content inspects on one candidate:
`candidate.get('finishReason')` and
`candidate.get('content', {}).get('parts', [{}])[0].get('text', '')`. -/
structure Candidate where
  finishReason : Option String
  text : String
deriving DecidableEq

/-- The outcome of the POST to the generation endpoint, abstracted to what
generate_content inspects: a 200 body (candidate list and prompt-feedback
block reason), a 429, another status, or a transport exception. -/
inductive HttpResponse where
  | ok200 (candidates : List Candidate) (blockReason : String)
  | err429
  | errOther (code : Nat) (text : String)
  | connError (msg : String)
deriving DecidableEq

/-- The dict returned by GeminiClient.generate_content.  `keyName` is an
Option because get_key may hand back no name; the "N/A" placeholders are
the literal strings the code puts there.  `waitSeconds` models
`res.get('wait_seconds', 0)`: it is 0 except in the quota branch. -/
structure GenReturn where
  success : Bool
  content : String
  modelUsed : String
  keyName : Option String
  waitSeconds : ℚ
deriving DecidableEq

/-- Python `int()` truncation on a rational. -/
def pyInt (q : ℚ) : Int :=
  if 0 ≤ q then ⌊q⌋ else ⌈q⌉

/-- `f"{finish_reason}"` on an optional value. -/
def optStr : Option String → String
  | none => "None"
  | some s => s

/-- The content of the request-too-large failure. -/
def tooLargeMsg (configId : String) (est : Nat) : String :=
  "Request too large for " ++ configId ++ " (Est. " ++ toString est ++ " tokens)."

/-- GeminiClient.generate_content: estimate the prompt, ask get_key, map the
fatal / positive-wait / no-key admission results to failure dicts, and
otherwise dispatch on the HTTP outcome.  On a 200 with a nonempty first
candidate text, report `est_tokens + int(len(text) * 0.25)` to the pool and
succeed.  (Python's `if not key_value` also treats an empty-string key as
absent; a KeyError escaping report_usage is caught by the surrounding
`except` and becomes a connection-error dict.) -/
def generate_content (s : KMState) (prompt : String) (configId : String)
    (http : HttpResponse) (now : ℚ) (today : String) : GenReturn × KMState :=
  let est := estimate_tokens prompt
  match get_key s configId est now today with
  | ((keyName, keyValue, waitTime, modelId), s1) =>
    if waitTime = -1 then
      (⟨false, tooLargeMsg configId est, modelId, some "N/A", 0⟩, s1)
    else if waitTime > 0 then
      (⟨false, "Rate limit reached. Please wait " ++ toString (pyInt waitTime)
          ++ " seconds.", modelId, some "N/A", waitTime⟩, s1)
    else
      match keyValue with
      | none =>
        (⟨false, "No API keys available for config '" ++ configId
            ++ "'. Check Key Tier.", modelId, some "N/A", 0⟩, s1)
      | some keyVal =>
        if keyVal = "" then
          (⟨false, "No API keys available for config '" ++ configId
              ++ "'. Check Key Tier.", modelId, some "N/A", 0⟩, s1)
        else
          match http with
          | .ok200 candidates blockReason =>
            match candidates with
            | [] =>
              (⟨false, "API returned no candidates. Block Reason: " ++ blockReason
                  ++ ". (Likely Safety Filter)", modelId, keyName, 0⟩, s1)
            | c :: _ =>
              if c.text = "" then
                (⟨false, "API returned empty text. Finish Reason: "
                    ++ optStr c.finishReason, modelId, keyName, 0⟩, s1)
              else
                match report_usage s1 keyVal (est + c.text.length / 4) modelId now today with
                | some s2 => (⟨true, c.text, modelId, keyName, 0⟩, s2)
                | none =>
                  (⟨false, "Connection Error: missing key hash", modelId, keyName, 0⟩, s1)
          | .err429 =>
            (⟨false, "Rate limit exceeded (429). Key rotated.", modelId, keyName, 0⟩,
              report_failure s1 keyVal false now)
          | .errOther code text =>
            (⟨false, "API Error " ++ toString code ++ ": " ++ text, modelId, keyName, 0⟩, s1)
          | .connError msg =>
            (⟨false, "Connection Error: " ++ msg, modelId, keyName, 0⟩, s1)

def c1State : KMState :=
  ⟨[("n1", "k1")], [("k1", "n1")], [("k1", "h1")], [("k1", "free")], ["k1"], [], [], []⟩

/-- C1 counterexample: prompt "pppp" estimates to 2 tokens and reply "abcd"
to `int(4 * 0.25) = 1` token, so the pool is told 3 tokens — but
estimate_tokens "abcd" = 2, so the claimed figure (input estimate plus
estimate_tokens of the reply, 4) differs: the output side uses a different
ratio than estimate_tokens. -/
theorem c1_counterexample :
    (generate_content c1State "pppp" "gemini-2.0-flash-free"
        (.ok200 [⟨none, "abcd"⟩] "") 100 "2026-10-12").1.success = true ∧
    alookup ("h1", "gemini-2.0-flash")
        (generate_content c1State "pppp" "gemini-2.0-flash-free"
          (.ok200 [⟨none, "abcd"⟩] "") 100 "2026-10-12").2.modelUsage =
      some ⟨1, 100, 3, 1, "2026-10-12", 0⟩ ∧
    estimate_tokens "pppp" + estimate_tokens "abcd" = 4 ∧ (3 : Nat) ≠ 4 :=
  ⟨rfl, rfl, rfl, by decide⟩

/-- C1 (amended): on an admitted request answered 200 with nonempty text,
generate_content succeeds and reports exactly
`estimate_tokens(prompt) + int(len(text) * 0.25)` to report_usage — the
output estimate uses the 4-characters-per-token truncation, not
estimate_tokens. -/
theorem c1_amended (s : KMState) (prompt configId : String)
    (fr : Option String) (text blockReason : String) (rest : List Candidate)
    (now : ℚ) (today : String) (name : Option String) (k mid : String)
    (s1 s2 : KMState)
    (hget : get_key s configId (estimate_tokens prompt) now today =
      ((name, some k, 0, mid), s1))
    (hk : k ≠ "") (htext : text ≠ "")
    (hrep : report_usage s1 k (estimate_tokens prompt + text.length / 4) mid now today =
      some s2) :
    generate_content s prompt configId (.ok200 (⟨fr, text⟩ :: rest) blockReason)
      now today = (⟨true, text, mid, name, 0⟩, s2) := by
  unfold generate_content
  simp only [hget]
  rw [if_neg (by norm_num : ¬ (0 : ℚ) = -1), if_neg (by norm_num : ¬ (0 : ℚ) > 0)]
  simp only [hk, if_neg]
  simp only [hrep]
  rw [if_neg htext]
  simp

def c1Cand : Candidate := ⟨none, "abcd"⟩

/-- C1 witness: the amended statement at the concrete one-key state. -/
theorem c1_witness :
    generate_content c1State "pppp" "gemini-2.0-flash-free"
        (.ok200 [c1Cand] "") 100 "2026-10-12" =
      (⟨true, "abcd", "gemini-2.0-flash", some "n1", 0⟩,
        ⟨[("n1", "k1")], [("k1", "n1")], [("k1", "h1")], [("k1", "free")], ["k1"], [], [],
          [(("h1", "gemini-2.0-flash"), ⟨1, 100, 3, 1, "2026-10-12", 0⟩)]⟩) :=
  c1_amended c1State "pppp" "gemini-2.0-flash-free" none "abcd" "" [] 100 "2026-10-12"
    (some "n1") "k1" "gemini-2.0-flash"
    (KMState.mk [("n1", "k1")] [("k1", "n1")] [("k1", "h1")] [("k1", "free")] [] [] [] [])
    (KMState.mk [("n1", "k1")] [("k1", "n1")] [("k1", "h1")] [("k1", "free")] ["k1"] [] []
      [(("h1", "gemini-2.0-flash"), ⟨1, 100, 3, 1, "2026-10-12", 0⟩)])
    (by rfl) (by decide) (by decide) (by rfl)

theorem string_data_append (p a : String) : (p ++ a).data = p.data ++ a.data := by
  cases p
  cases a
  rfl

theorem str_ne_at {s t : String} {i : Nat} {a b : Char} (hs : s.data[i]? = some a)
    (ht : t.data[i]? = some b) (hab : a ≠ b) : s ≠ t := by
  intro he
  rw [he, ht] at hs
  exact hab (Option.some.inj hs.symm)

theorem getElem_append_chain {l₁ : List Char} (l₂ : List Char) (i : Nat)
    (h : i < l₁.length) :
    (l₁ ++ l₂)[i]? = l₁[i]? ∧ i < (l₁ ++ l₂).length :=
  ⟨List.getElem?_append_left h, by rw [List.length_append]; omega⟩

theorem tooLargeMsg_get0 (c : String) (est : Nat) :
    (tooLargeMsg c est).data[0]? = some 'R' := by
  unfold tooLargeMsg
  rw [string_data_append, string_data_append, string_data_append, string_data_append]
  have h0 : (0 : Nat) < ("Request too large for ".data).length := by decide
  obtain ⟨e1, b1⟩ := getElem_append_chain c.data 0 h0
  obtain ⟨e2, b2⟩ := getElem_append_chain (" (Est. ".data) 0 b1
  obtain ⟨e3, b3⟩ := getElem_append_chain ((toString est).data) 0 b2
  obtain ⟨e4, _⟩ := getElem_append_chain (" tokens).".data) 0 b3
  rw [e4, e3, e2, e1]
  decide

theorem tooLargeMsg_get2 (c : String) (est : Nat) :
    (tooLargeMsg c est).data[2]? = some 'q' := by
  unfold tooLargeMsg
  rw [string_data_append, string_data_append, string_data_append, string_data_append]
  have h0 : (2 : Nat) < ("Request too large for ".data).length := by decide
  obtain ⟨e1, b1⟩ := getElem_append_chain c.data 2 h0
  obtain ⟨e2, b2⟩ := getElem_append_chain (" (Est. ".data) 2 b1
  obtain ⟨e3, b3⟩ := getElem_append_chain ((toString est).data) 2 b2
  obtain ⟨e4, _⟩ := getElem_append_chain (" tokens).".data) 2 b3
  rw [e4, e3, e2, e1]
  decide

theorem msg_rl_get2 (w : String) :
    ("Rate limit reached. Please wait " ++ w ++ " seconds.").data[2]? = some 't' := by
  rw [string_data_append, string_data_append]
  have h0 : (2 : Nat) < ("Rate limit reached. Please wait ".data).length := by decide
  obtain ⟨e1, b1⟩ := getElem_append_chain w.data 2 h0
  obtain ⟨e2, _⟩ := getElem_append_chain (" seconds.".data) 2 b1
  rw [e2, e1]
  decide

theorem msg_nokeys_get0 (c : String) :
    ("No API keys available for config '" ++ c ++ "'. Check Key Tier.").data[0]?
      = some 'N' := by
  rw [string_data_append, string_data_append]
  have h0 : (0 : Nat) < ("No API keys available for config '".data).length := by decide
  obtain ⟨e1, b1⟩ := getElem_append_chain c.data 0 h0
  obtain ⟨e2, _⟩ := getElem_append_chain ("'. Check Key Tier.".data) 0 b1
  rw [e2, e1]
  decide

theorem msg_nocand_get0 (br : String) :
    ("API returned no candidates. Block Reason: " ++ br
        ++ ". (Likely Safety Filter)").data[0]? = some 'A' := by
  rw [string_data_append, string_data_append]
  have h0 : (0 : Nat) < ("API returned no candidates. Block Reason: ".data).length := by
    decide
  obtain ⟨e1, b1⟩ := getElem_append_chain br.data 0 h0
  obtain ⟨e2, _⟩ := getElem_append_chain (". (Likely Safety Filter)".data) 0 b1
  rw [e2, e1]
  decide

theorem msg_empty_get0 (fr : String) :
    ("API returned empty text. Finish Reason: " ++ fr).data[0]? = some 'A' := by
  rw [string_data_append]
  have h0 : (0 : Nat) < ("API returned empty text. Finish Reason: ".data).length := by
    decide
  obtain ⟨e1, _⟩ := getElem_append_chain fr.data 0 h0
  rw [e1]
  decide

theorem msg_apierr_get0 (c t : String) :
    ("API Error " ++ c ++ ": " ++ t).data[0]? = some 'A' := by
  rw [string_data_append, string_data_append, string_data_append]
  have h0 : (0 : Nat) < ("API Error ".data).length := by decide
  obtain ⟨e1, b1⟩ := getElem_append_chain c.data 0 h0
  obtain ⟨e2, b2⟩ := getElem_append_chain (": ".data) 0 b1
  obtain ⟨e3, _⟩ := getElem_append_chain t.data 0 b2
  rw [e3, e2, e1]
  decide

theorem msg_conn_get0 (m : String) :
    ("Connection Error: " ++ m).data[0]? = some 'C' := by
  rw [string_data_append]
  have h0 : (0 : Nat) < ("Connection Error: ".data).length := by decide
  obtain ⟨e1, _⟩ := getElem_append_chain m.data 0 h0
  rw [e1]
  decide

/-- The wait component of get_key_core is -1 exactly when the estimate
exceeds the tokens-per-minute ceiling. -/
theorem get_key_core_wait_neg_iff (s1 : KMState) (q : AdmissionQuery) :
    (get_key_core s1 q).1.2.2.1 = -1 ↔ q.estimatedTokens > q.tpmLimit := by
  constructor
  · intro h
    by_contra hle
    unfold get_key_core at h
    rw [if_neg hle] at h
    split at h
    case _ name keyVal avail2 cd2 heq =>
      dsimp only at h
      norm_num at h
    case _ bw avail2 cd2 heq =>
      dsimp only at h
      split at h
      case _ w =>
        dsimp only at h
        have h0 : 0 ≤ w :=
          getKeyScan_exhausted_nonneg s1 q _ _ _ _ _ w _ _ heq
            (fun w' hw' => Option.noConfusion hw')
        rw [h] at h0
        norm_num at h0
      case _ =>
        split at h
        · dsimp only at h
          norm_num at h
        · split at h
          · dsimp only at h
            norm_num at h
          case _ w ws heqw =>
            dsimp only at h
            have hel : ∀ x ∈ w :: ws, 0 ≤ x := by
              intro x hx
              rw [← heqw] at hx
              obtain ⟨kt, hkt, hxeq⟩ := List.mem_map.mp hx
              have hf := (List.mem_filter.mp hkt).2
              rw [Bool.and_eq_true] at hf
              have hlt := of_decide_eq_true hf.2
              rw [← hxeq]
              linarith
            have h0 := foldl_min_nonneg w ws (hel w (List.mem_cons_self _ _))
              (fun x hx => hel x (List.mem_cons_of_mem _ hx))
            rw [h] at h0
            norm_num at h0
  · intro h
    unfold get_key_core
    rw [if_pos h]

/-- C4: for a known config_id, get_key signals wait -1.0 exactly when the
estimate exceeds the configuration's tokens-per-minute ceiling, independent
of the pool state; and generate_content produces the request-too-large
failure dict exactly when get_key signalled -1.0 for its prompt. -/
theorem c4_too_large (s : KMState) (configId : String) (config : ModelConfig)
    (est : Nat) (prompt : String) (http : HttpResponse) (now : ℚ) (today : String)
    (hcfg : alookup configId MODELS_CONFIG = some config) :
    ((get_key s configId est now today).1.2.2.1 = -1 ↔ est > config.tpm) ∧
    ((generate_content s prompt configId http now today).1 =
        ⟨false, tooLargeMsg configId (estimate_tokens prompt), config.model_id,
          some "N/A", 0⟩ ↔
      (get_key s configId (estimate_tokens prompt) now today).1.2.2.1 = -1) := by
  have hkey : ∀ est' : Nat, get_key s configId est' now today =
      get_key_core (reclaim_keys s now)
        ⟨if config.tier ≠ "paid" ∧ config.tier ≠ "free" then "free" else config.tier,
          config.model_id, config.rpm, config.tpm, config.rpd, est', now, today⟩ := by
    intro est'
    unfold get_key
    simp only [hcfg]
  have hiff : ∀ est' : Nat,
      ((get_key s configId est' now today).1.2.2.1 = -1 ↔ est' > config.tpm) := by
    intro est'
    rw [hkey est']
    exact get_key_core_wait_neg_iff _ _
  refine ⟨hiff est, ?_, ?_⟩
  · intro hr
    by_contra hw
    rcases hg : get_key s configId (estimate_tokens prompt) now today with
      ⟨⟨kn, kv, wt, mi⟩, s1⟩
    rw [hg] at hw
    dsimp only at hw
    unfold generate_content at hr
    simp only [hg] at hr
    rw [if_neg hw] at hr
    split at hr
    · have hc := congrArg GenReturn.content hr
      dsimp only at hc
      exact str_ne_at (msg_rl_get2 _) (tooLargeMsg_get2 _ _) (by decide) hc
    · split at hr
      · have hc := congrArg GenReturn.content hr
        dsimp only at hc
        exact str_ne_at (msg_nokeys_get0 _) (tooLargeMsg_get0 _ _) (by decide) hc
      case _ keyVal =>
        split at hr
        · have hc := congrArg GenReturn.content hr
          dsimp only at hc
          exact str_ne_at (msg_nokeys_get0 _) (tooLargeMsg_get0 _ _) (by decide) hc
        · split at hr
          case _ candidates blockReason =>
            split at hr
            · have hc := congrArg GenReturn.content hr
              dsimp only at hc
              exact str_ne_at (msg_nocand_get0 _) (tooLargeMsg_get0 _ _) (by decide) hc
            case _ c rest =>
              split at hr
              · have hc := congrArg GenReturn.content hr
                dsimp only at hc
                exact str_ne_at (msg_empty_get0 _) (tooLargeMsg_get0 _ _) (by decide) hc
              · split at hr
                · have hc := congrArg GenReturn.success hr
                  dsimp only at hc
                  simp at hc
                · have hc := congrArg GenReturn.content hr
                  dsimp only at hc
                  exact str_ne_at
                    (show ("Connection Error: missing key hash").data[0]? = some 'C' by
                      decide)
                    (tooLargeMsg_get0 _ _) (by decide) hc
          · have hc := congrArg GenReturn.content hr
            dsimp only at hc
            exact str_ne_at
              (show ("Rate limit exceeded (429). Key rotated.").data[2]? = some 't' by
                decide)
              (tooLargeMsg_get2 _ _) (by decide) hc
          · have hc := congrArg GenReturn.content hr
            dsimp only at hc
            exact str_ne_at (msg_apierr_get0 _ _) (tooLargeMsg_get0 _ _) (by decide) hc
          · have hc := congrArg GenReturn.content hr
            dsimp only at hc
            exact str_ne_at (msg_conn_get0 _) (tooLargeMsg_get0 _ _) (by decide) hc
  · intro hw
    have hgt : estimate_tokens prompt > config.tpm := (hiff _).mp hw
    have hg : get_key s configId (estimate_tokens prompt) now today =
        ((none, none, -1, config.model_id), reclaim_keys s now) := by
      rw [hkey _]
      unfold get_key_core
      rw [if_pos hgt]
    unfold generate_content
    simp only [hg]
    simp

/-- C4 witness: the Gemini 3 Pro free profile (tpm 32000) on an empty pool
with a one-character prompt. -/
theorem c4_witness :
    ((get_key kmEmpty "gemini-3-pro-free" 7 100 "2026-10-12").1.2.2.1 = -1 ↔
      7 > (ModelConfig.mk "gemini-3-pro-preview" "free" "Gemini 3 Pro (Free)"
        2 32000 50).tpm) ∧
    ((generate_content kmEmpty "x" "gemini-3-pro-free" (.connError "m")
        100 "2026-10-12").1 =
      ⟨false, tooLargeMsg "gemini-3-pro-free" (estimate_tokens "x"),
        (ModelConfig.mk "gemini-3-pro-preview" "free" "Gemini 3 Pro (Free)"
          2 32000 50).model_id, some "N/A", 0⟩ ↔
      (get_key kmEmpty "gemini-3-pro-free" (estimate_tokens "x")
        100 "2026-10-12").1.2.2.1 = -1) :=
  c4_too_large kmEmpty "gemini-3-pro-free"
    (ModelConfig.mk "gemini-3-pro-preview" "free" "Gemini 3 Pro (Free)" 2 32000 50)
    7 "x" (.connError "m") 100 "2026-10-12" (by decide)

/-- One API call's outcome as the worker's parse pipeline sees it, with the
JSON handling (fence stripping, repair_json_content, json.loads, the error
classification and salvage_json_items) abstracted into the environment:
`items?` holds the extracted item list when json.loads succeeds (the data
itself when it is a list, else its news_items), `errMatches` says whether a
failed parse's error message contains one of the salvage trigger substrings
(delimiter / double quotes / expecting value / unterminated), and `salvage`
is salvage_json_items applied to the raw content. -/
structure SuccessData where
  items? : Option (List ExtractionRecord)
  errMatches : Bool
  salvage : List ExtractionRecord
deriving DecidableEq

/-- What generate_content handed back, reduced to what the worker inspects:
`genFail` is any res with success False carrying res.get('wait_seconds', 0)
(the too-large, no-key, service-error and transport branches all carry 0),
`ok` is success True with the content abstracted as SuccessData. -/
inductive ApiOutcome where
  | genFail (waitSeconds : ℚ)
  | ok (d : SuccessData)
deriving DecidableEq

/-- The (success, items, logs, api_call_count) quadruple a worker returns. -/
structure WorkerResult where
  success : Bool
  items : List ExtractionRecord
  logs : List String
  calls : Nat
deriving DecidableEq

def logResidueOk : String := "residue check: all stories accounted for"

def logResidue : String := "residue detected: recovering missing"

def logResidualSync : String := "residual sync complete"

def logBranching : String := "zero-match: branching into 2 sub-parts"

def logBranchSync : String := "branch sync complete"

def logBranchFail : String := "branch failure persisted"

def logTrial : String := "trial: extraction in progress"

def logLowYield : String := "low yield: retrying"

def logSuccessMark : String := "success"

def logSalvageRejected : String := "eager salvage rejected: low yield"

def logSalvage : String := "eager salvage"

def logQuota : String := "quota hit: rotating keys"

def logTrialFailed : String := "trial failed"

def logWorkerError : String := "error"

def logEmergency : String := "emergency salvage"

def logEmergencyFail : String := "emergency salvage failed: yield too low"

/-- `chunk[:mid]` with `mid = len(chunk) // 2`. -/
def splitLeft (chunk : List NewsItem) : List NewsItem :=
  chunk.take (chunk.length / 2)

/-- `chunk[mid:]` with `mid = len(chunk) // 2`. -/
def splitRight (chunk : List NewsItem) : List NewsItem :=
  chunk.drop (chunk.length / 2)

theorem splitLeft_length_lt (chunk : List NewsItem) (h : 1 < chunk.length) :
    (splitLeft chunk).length < chunk.length := by
  unfold splitLeft
  rw [List.length_take]
  omega

theorem splitRight_length_lt (chunk : List NewsItem) (h : 1 < chunk.length) :
    (splitRight chunk).length < chunk.length := by
  unfold splitRight
  rw [List.length_drop]
  omega

/-- main.extract_chunk_worker_cli, the attempt loop of one invocation, with
the residue/branch logic at the top of attempts ≥ 2 on multi-item chunks,
the parse/validate path with its 95% threshold, and the emergency salvage
once the attempt budget is spent.

`w` runs a fresh worker on a strictly smaller chunk (residual recovery and
splitting); `env` supplies the outcome of the n-th API call overall and
`idx` is the index of the next call; `attempt` is the incremented counter
of the current iteration (the body runs while attempt ≤ 5); `best`,
`lastOk` and `minReqDefined` model best_parsed_items, the last 200-response
and whether min_req has been bound (an unbound min_req in the salvage path
is a NameError caught by the outer handler).  The first argument is fuel
that only makes the recursion structural: the loop maintains
fuel = 7 - attempt, so the fleet-zero arm (which returns the same final
failure quadruple the loop would) is never reached.  Log messages are fixed
markers in place of the interpolated f-strings. -/
def workerLoop (w : List NewsItem → Nat → WorkerResult) (env : Nat → ApiOutcome)
    (chunk : List NewsItem) : Nat → Nat → Nat → List ExtractionRecord →
      Option SuccessData → Bool → Nat → List String → WorkerResult
  | 0, _, _, _, _, _, calls, logs => ⟨false, [], logs, calls⟩
  | fuel + 1, idx, attempt, best, lastOk, minReqDefined, calls, logs =>
    if attempt > 5 then
      match lastOk with
      | some d =>
        if d.salvage ≠ [] then
          if 20 * (chunk.length - (find_missing_items chunk d.salvage).length) ≥
              19 * chunk.length then
            ⟨true, d.salvage, logs ++ [logEmergency], calls⟩
          else ⟨false, [], logs ++ [logEmergencyFail], calls⟩
        else ⟨false, [], logs, calls⟩
      | none => ⟨false, [], logs, calls⟩
    else
      if attempt ≥ 2 ∧ chunk.length > 1 then
        let salvagedSoFar :=
          if best ≠ [] then best
          else match lastOk with
            | some d => d.salvage
            | none => []
        let missing := find_missing_items chunk salvagedSoFar
        if missing = [] then ⟨true, salvagedSoFar, logs ++ [logResidueOk], calls⟩
        else if missing.length < chunk.length then
          let r := w missing idx
          if r.success then
            ⟨true, salvagedSoFar ++ r.items,
              logs ++ [logResidue] ++ r.logs ++ [logResidualSync], calls + r.calls⟩
          else
            ⟨false, salvagedSoFar ++ r.items, logs ++ [logResidue] ++ r.logs,
              calls + r.calls⟩
        else
          let rl := w (splitLeft chunk) idx
          let rr := w (splitRight chunk) (idx + rl.calls)
          if rl.success && rr.success then
            ⟨true, rl.items ++ rr.items,
              logs ++ [logBranching] ++ rl.logs ++ rr.logs ++ [logBranchSync],
              calls + rl.calls + rr.calls⟩
          else
            ⟨false, rl.items ++ rr.items,
              logs ++ [logBranching] ++ rl.logs ++ rr.logs ++ [logBranchFail],
              calls + rl.calls + rr.calls⟩
      else
        match env idx with
        | .genFail wait =>
          if wait > 0 then
            workerLoop w env chunk fuel (idx + 1) (attempt + 1) best lastOk
              minReqDefined (calls + 1) (logs ++ [logTrial, logQuota])
          else
            workerLoop w env chunk fuel (idx + 1) (attempt + 1) best lastOk
              minReqDefined (calls + 1) (logs ++ [logTrial, logTrialFailed])
        | .ok d =>
          match d.items? with
          | some items =>
            let best2 := if items.length > best.length then items else best
            if 20 * (chunk.length - (find_missing_items chunk items).length) <
                  19 * chunk.length ∧ attempt < 5 then
              workerLoop w env chunk fuel (idx + 1) (attempt + 1) best2 (some d) true
                (calls + 1) (logs ++ [logTrial, logLowYield])
            else
              ⟨true, items, logs ++ [logTrial, logSuccessMark], calls + 1⟩
          | none =>
            if d.errMatches ∧ d.salvage ≠ [] then
              if minReqDefined then
                if 20 * (chunk.length - (find_missing_items chunk d.salvage).length) <
                      19 * chunk.length ∧ attempt < 5 then
                  workerLoop w env chunk fuel (idx + 1) (attempt + 1) best (some d)
                    minReqDefined (calls + 1) (logs ++ [logTrial, logSalvageRejected])
                else
                  ⟨true, d.salvage, logs ++ [logTrial, logSalvage], calls + 1⟩
              else
                workerLoop w env chunk fuel (idx + 1) (attempt + 1) best (some d)
                  minReqDefined (calls + 1) (logs ++ [logTrial, logWorkerError])
            else
              workerLoop w env chunk fuel (idx + 1) (attempt + 1) best (some d)
                minReqDefined (calls + 1) (logs ++ [logTrial, logWorkerError])

/-- The worker recursion over chunk size.  The fuel bounds the chunk length
strictly (every recursive chunk — residual missing items, either bisection
half — is strictly shorter, so with fuel = length + 1 at the top the zero
arm is unreachable); it only makes the recursion structural. -/
def workerRec : Nat → (Nat → ApiOutcome) → List NewsItem → Nat → WorkerResult
  | 0, _, _, _ => ⟨false, [], [], 0⟩
  | flen + 1, env, chunk, idx =>
    workerLoop (workerRec flen env) env chunk 6 idx 1 [] none false 0 []

/-- main.extract_chunk_worker_cli: one fresh worker invocation. -/
def extract_chunk_worker_cli (env : Nat → ApiOutcome) (chunk : List NewsItem)
    (idx : Nat) : WorkerResult :=
  workerRec (chunk.length + 1) env chunk idx

theorem splitLeft_length (chunk : List NewsItem) :
    (splitLeft chunk).length = chunk.length / 2 := by
  unfold splitLeft
  rw [List.length_take]
  omega

theorem splitRight_length (chunk : List NewsItem) :
    (splitRight chunk).length = chunk.length - chunk.length / 2 := by
  unfold splitRight
  rw [List.length_drop]

theorem find_missing_items_sublist (chunk : List NewsItem)
    (salvaged : List ExtractionRecord) :
    List.Sublist (find_missing_items chunk salvaged) chunk := by
  unfold find_missing_items
  split
  · exact List.Sublist.refl _
  · exact List.filter_sublist _

/-- The call counter never decreases through the attempt loop. -/
theorem workerLoop_calls_ge (w : List NewsItem → Nat → WorkerResult)
    (env : Nat → ApiOutcome) (chunk : List NewsItem) :
    ∀ (fuel idx attempt : Nat) (best : List ExtractionRecord)
      (lastOk : Option SuccessData) (mrd : Bool) (calls : Nat) (logs : List String),
      calls ≤ (workerLoop w env chunk fuel idx attempt best lastOk mrd calls logs).calls := by
  intro fuel
  induction fuel with
  | zero =>
    intro idx attempt best lastOk mrd calls logs
    simp [workerLoop]
  | succ fuel ih =>
    intro idx attempt best lastOk mrd calls logs
    simp only [workerLoop]
    repeat' split
    all_goals first
      | omega
      | (dsimp only; omega)
      | exact le_trans (Nat.le_succ _) (ih _ _ _ _ _ _ _)

/-- Resource bound for the attempt loop: given that the fresh sub-worker
obeys the 10·n − 5 call bound on nonempty chunks, one loop run makes at
most 6 − attempt further calls plus the recursion budget. -/
theorem workerLoop_calls_bound (w : List NewsItem → Nat → WorkerResult)
    (env : Nat → ApiOutcome) (chunk : List NewsItem)
    (hw : ∀ (c' : List NewsItem) (i' : Nat), 1 ≤ c'.length →
      (w c' i').calls ≤ 10 * c'.length - 5) :
    ∀ (fuel idx attempt : Nat) (best : List ExtractionRecord)
      (lastOk : Option SuccessData) (mrd : Bool) (calls : Nat) (logs : List String),
      (workerLoop w env chunk fuel idx attempt best lastOk mrd calls logs).calls ≤
        calls + (6 - attempt) +
          (if 2 ≤ chunk.length then 10 * chunk.length - 10 else 0) := by
  intro fuel
  induction fuel with
  | zero =>
    intro idx attempt best lastOk mrd calls logs
    simp only [workerLoop]
    split <;> omega
  | succ fuel ih =>
    intro idx attempt best lastOk mrd calls logs
    simp only [workerLoop]
    split
    case isTrue h5 =>
      repeat' split
      all_goals try dsimp only
      all_goals omega
    case isFalse h5 =>
      split
      case isTrue hguard =>
        rw [if_pos (show 2 ≤ chunk.length by omega)]
        generalize (if best ≠ [] then best
          else match lastOk with
            | some d => d.salvage
            | none => []) = S
        split
        case isTrue hempty =>
          dsimp only
          omega
        case isFalse hne =>
          split
          case isTrue hlt =>
            have hM1 : 1 ≤ (find_missing_items chunk S).length := by
              rcases Nat.eq_zero_or_pos (find_missing_items chunk S).length with h0 | h0
              · exact absurd (List.length_eq_zero.mp h0) hne
              · exact h0
            have hb := hw _ idx hM1
            split
            all_goals try dsimp only
            all_goals omega
          case isFalse hnlt =>
            have hl1 : 1 ≤ (splitLeft chunk).length := by
              rw [splitLeft_length]
              omega
            have hr1 : 1 ≤ (splitRight chunk).length := by
              rw [splitRight_length]
              omega
            have hbl := hw (splitLeft chunk) idx hl1
            have hbr := hw (splitRight chunk) (idx + (w (splitLeft chunk) idx).calls) hr1
            rw [splitLeft_length] at hbl
            rw [splitRight_length] at hbr
            split
            all_goals try dsimp only
            all_goals omega
      case isFalse hguard =>
        split
        case h_1 wait =>
          split
          · exact le_trans (ih _ _ _ _ _ _ _) (by omega)
          · exact le_trans (ih _ _ _ _ _ _ _) (by omega)
        case h_2 d =>
          split
          case h_1 items =>
            split
            · exact le_trans (ih _ _ _ _ _ _ _) (by omega)
            · dsimp only
              omega
          case h_2 =>
            split
            case isTrue =>
              split
              case isTrue =>
                split
                · exact le_trans (ih _ _ _ _ _ _ _) (by omega)
                · dsimp only
                  omega
              case isFalse =>
                exact le_trans (ih _ _ _ _ _ _ _) (by omega)
            case isFalse =>
              exact le_trans (ih _ _ _ _ _ _ _) (by omega)

theorem workerRec_calls_bound (env : Nat → ApiOutcome) :
    ∀ (flen : Nat) (chunk : List NewsItem) (idx : Nat), 1 ≤ chunk.length →
      (workerRec flen env chunk idx).calls ≤ 10 * chunk.length - 5 := by
  intro flen
  induction flen with
  | zero =>
    intro chunk idx h1
    simp only [workerRec]
    omega
  | succ flen ih =>
    intro chunk idx h1
    simp only [workerRec]
    have hb := workerLoop_calls_bound (workerRec flen env) env chunk
      (fun c' i' h1' => ih c' i' h1') 6 idx 1 [] none false 0 []
    split at hb <;> omega

/-- On a chunk of at most one item the loop never reaches the residue
branch, so the branching marker never enters the log. -/
theorem workerLoop_no_branch_log (w : List NewsItem → Nat → WorkerResult)
    (env : Nat → ApiOutcome) (chunk : List NewsItem) (hlen : chunk.length ≤ 1) :
    ∀ (fuel idx attempt : Nat) (best : List ExtractionRecord)
      (lastOk : Option SuccessData) (mrd : Bool) (calls : Nat) (logs : List String),
      logBranching ∉ logs →
      logBranching ∉
        (workerLoop w env chunk fuel idx attempt best lastOk mrd calls logs).logs := by
  intro fuel
  induction fuel with
  | zero =>
    intro idx attempt best lastOk mrd calls logs hl
    simpa [workerLoop] using hl
  | succ fuel ih =>
    intro idx attempt best lastOk mrd calls logs hl
    simp only [workerLoop]
    rw [if_neg (show ¬ (attempt ≥ 2 ∧ chunk.length > 1) by omega)]
    split
    case isTrue h5 =>
      repeat' split
      all_goals try dsimp only
      all_goals intro hmem
      all_goals first
        | exact hl hmem
        | (rcases List.mem_append.mp hmem with hm | hm <;>
            first
              | exact hl hm
              | (rw [List.mem_singleton] at hm; revert hm; decide))
    case isFalse h5 =>
      have hpair : ∀ x : String, logBranching ∈ logs ++ [logTrial, x] →
          x ≠ logBranching → False := by
        intro x hmem hx
        rcases List.mem_append.mp hmem with hm | hm
        · exact hl hm
        · rcases List.mem_cons.mp hm with he | hm2
          · revert he
            decide
          · rw [List.mem_singleton] at hm2
            exact hx hm2.symm
      split
      case h_1 wait =>
        split
        · exact ih _ _ _ _ _ _ _ (fun hmem => hpair _ hmem (by decide))
        · exact ih _ _ _ _ _ _ _ (fun hmem => hpair _ hmem (by decide))
      case h_2 d =>
        split
        case h_1 items =>
          split
          · exact ih _ _ _ _ _ _ _ (fun hmem => hpair _ hmem (by decide))
          · dsimp only
            intro hmem
            exact hpair _ hmem (by decide)
        case h_2 =>
          split
          case isTrue =>
            split
            case isTrue =>
              split
              · exact ih _ _ _ _ _ _ _ (fun hmem => hpair _ hmem (by decide))
              · dsimp only
                intro hmem
                exact hpair _ hmem (by decide)
            case isFalse =>
              exact ih _ _ _ _ _ _ _ (fun hmem => hpair _ hmem (by decide))
          case isFalse =>
            exact ih _ _ _ _ _ _ _ (fun hmem => hpair _ hmem (by decide))

def c3Item : NewsItem := ⟨"c3 story", "tm", "p", []⟩

/-- C3 counterexample: with every generation request answered by the shape
of the fatal too-large result (success False and no wait_seconds, hence
wait 0), a single-item chunk is attempted 5 times before failing — the
worker does not fail immediately after the first fatal answer. -/
theorem c3_counterexample :
    (extract_chunk_worker_cli (fun _ => .genFail 0) [c3Item] 0).calls = 5 ∧
    (extract_chunk_worker_cli (fun _ => .genFail 0) [c3Item] 0).success = false ∧
    (5 : Nat) ≠ 1 := by
  decide

/-- C3 (amended): the worker treats the fatal too-large outcome like any
other non-quota failure.  On a single-item chunk under an environment that
always answers with a failure dict carrying wait 0 — the dict
generate_content builds for the -1.0 admission signal — the worker makes
exactly 5 generation attempts and only then returns a failed result with
no items. -/
theorem c3_amended (x : NewsItem) (idx : Nat) (env : Nat → ApiOutcome)
    (henv : ∀ n, env n = .genFail 0) :
    (extract_chunk_worker_cli env [x] idx).calls = 5 ∧
    (extract_chunk_worker_cli env [x] idx).success = false ∧
    (extract_chunk_worker_cli env [x] idx).items = [] := by
  have hstep : ∀ (fuel idx' attempt : Nat) (best : List ExtractionRecord)
      (lastOk : Option SuccessData) (mrd : Bool) (calls : Nat) (logs : List String),
      attempt ≤ 5 →
      workerLoop (workerRec 1 env) env [x] (fuel + 1) idx' attempt best lastOk mrd
          calls logs =
        workerLoop (workerRec 1 env) env [x] fuel (idx' + 1) (attempt + 1) best lastOk
          mrd (calls + 1) (logs ++ [logTrial, logTrialFailed]) := by
    intro fuel idx' attempt best lastOk mrd calls logs h5
    simp only [workerLoop]
    rw [if_neg (show ¬ attempt > 5 by omega)]
    rw [if_neg (show ¬ (attempt ≥ 2 ∧ ([x] : List NewsItem).length > 1) by simp)]
    simp only [henv]
    rw [if_neg (show ¬ (0 : ℚ) > 0 by norm_num)]
  have hfinal : extract_chunk_worker_cli env [x] idx =
      workerLoop (workerRec 1 env) env [x] 1 (idx + 5) 6 [] none false 5
        ([] ++ [logTrial, logTrialFailed] ++ [logTrial, logTrialFailed]
          ++ [logTrial, logTrialFailed] ++ [logTrial, logTrialFailed]
          ++ [logTrial, logTrialFailed]) := by
    unfold extract_chunk_worker_cli
    rw [show ([x] : List NewsItem).length + 1 = 2 by simp]
    rw [show workerRec 2 env [x] idx =
      workerLoop (workerRec 1 env) env [x] 6 idx 1 [] none false 0 [] from rfl]
    rw [hstep 5 idx 1 _ _ _ _ _ (by omega)]
    rw [hstep 4 (idx + 1) 2 _ _ _ _ _ (by omega)]
    rw [hstep 3 (idx + 1 + 1) 3 _ _ _ _ _ (by omega)]
    rw [hstep 2 (idx + 1 + 1 + 1) 4 _ _ _ _ _ (by omega)]
    rw [hstep 1 (idx + 1 + 1 + 1 + 1) 5 _ _ _ _ _ (by omega)]
  rw [hfinal]
  simp only [workerLoop]
  rw [if_pos (show (6 : Nat) > 5 by omega)]
  exact ⟨rfl, rfl, rfl⟩

/-- C3 witness: the amended statement at a concrete item and environment. -/
theorem c3_witness :
    (extract_chunk_worker_cli (fun _ => .genFail 0) [c3Item] 7).calls = 5 ∧
    (extract_chunk_worker_cli (fun _ => .genFail 0) [c3Item] 7).success = false ∧
    (extract_chunk_worker_cli (fun _ => .genFail 0) [c3Item] 7).items = [] :=
  c3_amended c3Item 7 (fun _ => .genFail 0) (fun _ => rfl)

def c2Item : NewsItem := ⟨"alpha", "tm", "p", []⟩

def c2Rec : ExtractionRecord := ⟨["zzz"]⟩

/-- C2 counterexample: an environment that always parses to one record
covering none of the chunk is accepted on the 5th attempt with coverage
0% < 95% — low-coverage results are accepted on the final attempt. -/
theorem c2_counterexample :
    (extract_chunk_worker_cli (fun _ => .ok ⟨some [c2Rec], false, []⟩)
        [c2Item] 0).success = true ∧
    (extract_chunk_worker_cli (fun _ => .ok ⟨some [c2Rec], false, []⟩)
        [c2Item] 0).items = [c2Rec] ∧
    20 * (([c2Item] : List NewsItem).length -
        (find_missing_items [c2Item] [c2Rec]).length) <
      19 * ([c2Item] : List NewsItem).length := by
  decide

/-- C2 (amended): on the parse/validate path (reached at attempt 1, or at
any attempt for chunks of at most one item), an attempt's parsed result is
accepted as-is exactly when its coverage reaches 95% of the chunk's items
or the attempt is the 5th and final one; below the threshold before the
final attempt, the worker goes on to make at least one further call (here
stated for single-item chunks; a larger chunk instead enters residue
recovery or splits at attempt 2). -/
theorem c2_amended (w : List NewsItem → Nat → WorkerResult) (env : Nat → ApiOutcome)
    (chunk : List NewsItem) (fuel idx attempt : Nat) (best : List ExtractionRecord)
    (lastOk : Option SuccessData) (mrd : Bool) (calls : Nat) (logs : List String)
    (d : SuccessData) (items : List ExtractionRecord)
    (hfuel : fuel + attempt = 7) (h1 : 1 ≤ attempt) (h5 : attempt ≤ 5)
    (hpath : attempt = 1 ∨ chunk.length ≤ 1)
    (henv : env idx = .ok d) (hitems : d.items? = some items) :
    (20 * (chunk.length - (find_missing_items chunk items).length) ≥ 19 * chunk.length
        ∨ attempt = 5 →
      workerLoop w env chunk fuel idx attempt best lastOk mrd calls logs =
        ⟨true, items, logs ++ [logTrial, logSuccessMark], calls + 1⟩) ∧
    (20 * (chunk.length - (find_missing_items chunk items).length) < 19 * chunk.length →
      attempt < 5 → chunk.length ≤ 1 →
      calls + 2 ≤ (workerLoop w env chunk fuel idx attempt best lastOk mrd calls logs).calls) := by
  obtain ⟨f, rfl⟩ : ∃ f, fuel = f + 1 := ⟨fuel - 1, by omega⟩
  constructor
  · intro hacc
    simp only [workerLoop]
    rw [if_neg (show ¬ attempt > 5 by omega)]
    rw [if_neg (show ¬ (attempt ≥ 2 ∧ chunk.length > 1) by
      rcases hpath with h | h <;> omega)]
    simp only [henv, hitems]
    rw [if_neg (show ¬ (20 * (chunk.length - (find_missing_items chunk items).length) <
        19 * chunk.length ∧ attempt < 5) by
      rintro ⟨hl, hlt⟩
      rcases hacc with h | h <;> omega)]
  · intro hlow hlt5 hlen
    simp only [workerLoop]
    rw [if_neg (show ¬ attempt > 5 by omega)]
    rw [if_neg (show ¬ (attempt ≥ 2 ∧ chunk.length > 1) by
      rcases hpath with h | h <;> omega)]
    simp only [henv, hitems]
    rw [if_pos ⟨hlow, hlt5⟩]
    obtain ⟨f2, rfl⟩ : ∃ f2, f = f2 + 1 := ⟨f - 1, by omega⟩
    simp only [workerLoop]
    rw [if_neg (show ¬ attempt + 1 > 5 by omega)]
    rw [if_neg (show ¬ (attempt + 1 ≥ 2 ∧ chunk.length > 1) by omega)]
    rcases henv2 : env (idx + 1) with wait | d2
    · simp only [henv2]
      split
      · exact workerLoop_calls_ge _ _ _ _ _ _ _ _ _ _ _
      · exact workerLoop_calls_ge _ _ _ _ _ _ _ _ _ _ _
    · simp only [henv2]
      rcases hd2 : d2.items? with _ | items2
      · simp only [hd2]
        split
        · split
          · split
            · exact workerLoop_calls_ge _ _ _ _ _ _ _ _ _ _ _
            · dsimp only
              omega
          · exact workerLoop_calls_ge _ _ _ _ _ _ _ _ _ _ _
        · exact workerLoop_calls_ge _ _ _ _ _ _ _ _ _ _ _
      · simp only [hd2]
        split
        · exact workerLoop_calls_ge _ _ _ _ _ _ _ _ _ _ _
        · dsimp only
          omega

def c2GoodRec : ExtractionRecord := ⟨["alpha"]⟩

/-- C2 witness: the amended statement at a concrete single-item chunk and
environment whose parse covers the whole chunk. -/
theorem c2_witness :
    (20 * (([c2Item] : List NewsItem).length -
        (find_missing_items [c2Item] [c2GoodRec]).length) ≥
          19 * ([c2Item] : List NewsItem).length ∨ (1 : Nat) = 5 →
      workerLoop (fun _ _ => ⟨false, [], [], 0⟩)
          (fun _ => .ok ⟨some [c2GoodRec], false, []⟩) [c2Item] 6 0 1 [] none false 0 [] =
        ⟨true, [c2GoodRec], [] ++ [logTrial, logSuccessMark], 0 + 1⟩) ∧
    (20 * (([c2Item] : List NewsItem).length -
        (find_missing_items [c2Item] [c2GoodRec]).length) <
          19 * ([c2Item] : List NewsItem).length → (1 : Nat) < 5 →
      ([c2Item] : List NewsItem).length ≤ 1 →
      0 + 2 ≤ (workerLoop (fun _ _ => ⟨false, [], [], 0⟩)
          (fun _ => .ok ⟨some [c2GoodRec], false, []⟩) [c2Item] 6 0 1 [] none false 0
          []).calls) :=
  c2_amended (fun _ _ => ⟨false, [], [], 0⟩)
    (fun _ => .ok ⟨some [c2GoodRec], false, []⟩) [c2Item] 6 0 1 [] none false 0 []
    ⟨some [c2GoodRec], false, []⟩ [c2GoodRec] (by omega) (by omega) (by omega)
    (Or.inl rfl) rfl rfl

/-- C9: the worker is total with bounded work — a single-item invocation
makes at most 5 attempts (hence at most 5 API calls, with no further
recursion possible), any nonempty chunk costs at most 10·n − 5 calls
overall, the split bisects into two nonempty strictly-smaller halves that
reassemble the chunk, residual recovery recurses on a sublist of the chunk
(strictly smaller by the guard), and a single-item chunk never reaches the
splitting branch. -/
theorem c9_termination_props :
    (∀ (env : Nat → ApiOutcome) (idx : Nat) (x : NewsItem),
      (extract_chunk_worker_cli env [x] idx).calls ≤ 5) ∧
    (∀ (env : Nat → ApiOutcome) (idx : Nat) (chunk : List NewsItem),
      1 ≤ chunk.length →
      (extract_chunk_worker_cli env chunk idx).calls ≤ 10 * chunk.length - 5) ∧
    (∀ chunk : List NewsItem, 1 < chunk.length →
      splitLeft chunk ≠ [] ∧ splitRight chunk ≠ [] ∧
      (splitLeft chunk).length < chunk.length ∧
      (splitRight chunk).length < chunk.length ∧
      splitLeft chunk ++ splitRight chunk = chunk) ∧
    (∀ (chunk : List NewsItem) (salvaged : List ExtractionRecord),
      List.Sublist (find_missing_items chunk salvaged) chunk) ∧
    (∀ (env : Nat → ApiOutcome) (idx : Nat) (x : NewsItem),
      logBranching ∉ (extract_chunk_worker_cli env [x] idx).logs) := by
  refine ⟨?_, ?_, ?_, find_missing_items_sublist, ?_⟩
  · intro env idx x
    have h := workerRec_calls_bound env (([x] : List NewsItem).length + 1) [x] idx
      (by simp)
    simpa [extract_chunk_worker_cli] using h
  · intro env idx chunk h1
    unfold extract_chunk_worker_cli
    exact workerRec_calls_bound env _ chunk idx h1
  · intro chunk h
    refine ⟨?_, ?_, splitLeft_length_lt chunk h, splitRight_length_lt chunk h, ?_⟩
    · intro he
      have hle := splitLeft_length chunk
      rw [he] at hle
      simp at hle
      omega
    · intro he
      have hle := splitRight_length chunk
      rw [he] at hle
      simp at hle
      omega
    · unfold splitLeft splitRight
      exact List.take_append_drop _ _
  · intro env idx x
    unfold extract_chunk_worker_cli
    rw [show ([x] : List NewsItem).length + 1 = 2 by simp]
    rw [show workerRec 2 env [x] idx =
      workerLoop (workerRec 1 env) env [x] 6 idx 1 [] none false 0 [] from rfl]
    exact workerLoop_no_branch_log _ env [x] (by simp) 6 idx 1 [] none false 0 []
      (by simp)

def c9ItemA : NewsItem := ⟨"story nine a", "t", "p", []⟩

def c9ItemB : NewsItem := ⟨"story nine b", "t", "p", []⟩

/-- C9 witness: the bounds and split facts at concrete inputs. -/
theorem c9_witness :
    (extract_chunk_worker_cli (fun _ => .genFail 0) [c9ItemA] 0).calls ≤ 5 ∧
    (extract_chunk_worker_cli (fun _ => .genFail 0) [c9ItemA, c9ItemB] 0).calls ≤
      10 * ([c9ItemA, c9ItemB] : List NewsItem).length - 5 ∧
    splitLeft [c9ItemA, c9ItemB] ≠ [] ∧
    splitLeft [c9ItemA, c9ItemB] ++ splitRight [c9ItemA, c9ItemB] = [c9ItemA, c9ItemB] ∧
    logBranching ∉ (extract_chunk_worker_cli (fun _ => .genFail 0) [c9ItemA] 0).logs :=
  ⟨c9_termination_props.1 (fun _ => .genFail 0) 0 c9ItemA,
    c9_termination_props.2.1 (fun _ => .genFail 0) 0 [c9ItemA, c9ItemB] (by decide),
    (c9_termination_props.2.2.1 [c9ItemA, c9ItemB] (by decide)).1,
    (c9_termination_props.2.2.1 [c9ItemA, c9ItemB] (by decide)).2.2.2.2,
    c9_termination_props.2.2.2.2 (fun _ => .genFail 0) 0 c9ItemA⟩
